import Mathlib

/-!
# Verification of the `l8r` HAProxy log-line decoder

Shallow embedding of `src/haproxy.rs` and the token grammar `RE` of
`src/main.rs`.  The regex is embedded as a token list interpreted by a
greedy backtracking matcher (`matchSeq`) that mirrors the leftmost-first
greedy semantics of the `regex` crate on this alternation-free pattern.
Character classes are the ASCII restrictions of the Unicode classes used
by the `regex` crate; `\s` carries the full Unicode `White_Space` set.
-/

set_option maxRecDepth 40000

namespace L8r

/-! ## Character classes of the token grammar -/

/-- Class `[A-Za-z]`. -/
def isAlphaChar (c : Char) : Bool :=
  ('A' ≤ c && c ≤ 'Z') || ('a' ≤ c && c ≤ 'z')

/-- Class `\d` (ASCII restriction of Unicode `Nd`). -/
def isDigitChar (c : Char) : Bool :=
  '0' ≤ c && c ≤ '9'

/-- Class `\s`: the Unicode `White_Space` property, as matched by the
`regex` crate. -/
def isWsChar (c : Char) : Bool :=
  c = ' ' || c = '\t' || c = '\n' || c = '\x0b' || c = '\x0c' || c = '\r' ||
  c = '\x85' || c = '\xa0' || c = ' ' ||
  (' ' ≤ c && c ≤ ' ') ||
  c = ' ' || c = ' ' || c = ' ' || c = ' ' || c = '　'

/-- Class `\w` (ASCII restriction of the Unicode word class). -/
def isWordChar (c : Char) : Bool :=
  isAlphaChar c || isDigitChar c || c = '_'

/-- Class `[A-Za-z0-9]`. -/
def isAlnumChar (c : Char) : Bool :=
  isAlphaChar c || isDigitChar c

/-- Class `[0-9:]`. -/
def isTimeChar (c : Char) : Bool :=
  isDigitChar c || c = ':'

/-- Class `[0-9.]`. -/
def isIpChar (c : Char) : Bool :=
  isDigitChar c || c = '.'

/-- Class `[\w-]` (also written `[-\w]` in the pattern). -/
def isWordDashChar (c : Char) : Bool :=
  isWordChar c || c = '-'

/-- Class `.`: any character except a newline. -/
def isDotChar (c : Char) : Bool :=
  c ≠ '\n'

/-! ## Regex tokens and the backtracking matcher -/

/-- One token of the (alternation-free) pattern: a literal character, or a
greedy repetition `{lo,hi}` of a character class (`hi = none` meaning
unbounded, so `p+` is `rep p 1 none` and `p{n}` is `rep p n (some n)`). -/
inductive RTok where
  | lit (c : Char)
  | rep (p : Char → Bool) (lo : Nat) (hi : Option Nat)

/-- The named capture groups of `RE`, in order of appearance. -/
inductive GName where
  | month | day | time | host | process_id | source_ip_port
  | time_stamp_accepted | frontend_name | backend_name | server_name
  | queues_stats | response_code | bytes_read | termination_state
  | conn_counts | queue | request
deriving DecidableEq

/-- A token optionally tagged with the capture group it belongs to. -/
abbrev GTok := Option GName × RTok

/-- The capture groups produced by a match, one field per named group of
`RE` (each holds the captured character list). -/
structure Caps where
  month : List Char := []
  day : List Char := []
  time : List Char := []
  host : List Char := []
  process_id : List Char := []
  source_ip_port : List Char := []
  time_stamp_accepted : List Char := []
  frontend_name : List Char := []
  backend_name : List Char := []
  server_name : List Char := []
  queues_stats : List Char := []
  response_code : List Char := []
  bytes_read : List Char := []
  termination_state : List Char := []
  conn_counts : List Char := []
  queue : List Char := []
  request : List Char := []
deriving DecidableEq

/-- The empty capture set. -/
def initCaps : Caps := {}

/-- Prepend a consumed chunk to the capture of group `g` (tokens of one
group are contiguous, so sequential prepending reconstructs the capture). -/
def addCap (g : Option GName) (l : List Char) (caps : Caps) : Caps :=
  match g with
  | none => caps
  | some .month => { caps with month := l ++ caps.month }
  | some .day => { caps with day := l ++ caps.day }
  | some .time => { caps with time := l ++ caps.time }
  | some .host => { caps with host := l ++ caps.host }
  | some .process_id => { caps with process_id := l ++ caps.process_id }
  | some .source_ip_port => { caps with source_ip_port := l ++ caps.source_ip_port }
  | some .time_stamp_accepted => { caps with time_stamp_accepted := l ++ caps.time_stamp_accepted }
  | some .frontend_name => { caps with frontend_name := l ++ caps.frontend_name }
  | some .backend_name => { caps with backend_name := l ++ caps.backend_name }
  | some .server_name => { caps with server_name := l ++ caps.server_name }
  | some .queues_stats => { caps with queues_stats := l ++ caps.queues_stats }
  | some .response_code => { caps with response_code := l ++ caps.response_code }
  | some .bytes_read => { caps with bytes_read := l ++ caps.bytes_read }
  | some .termination_state => { caps with termination_state := l ++ caps.termination_state }
  | some .conn_counts => { caps with conn_counts := l ++ caps.conn_counts }
  | some .queue => { caps with queue := l ++ caps.queue }
  | some .request => { caps with request := l ++ caps.request }

/-- Length of the maximal prefix of `s` whose characters satisfy `p`. -/
def runLen (p : Char → Bool) : List Char → Nat
  | [] => 0
  | c :: s => if p c then runLen p s + 1 else 0

/-- The candidate repetition counts `[k, k-1, ..., lo]`, greedy order. -/
def descList (lo k : Nat) : List Nat :=
  (List.range (k + 1 - lo)).map (fun i => k - i)

/-- Greedy backtracking matcher for an anchored token sequence: consumes
`s` entirely or fails.  For a repetition it tries the longest feasible
count first, exactly the leftmost-first greedy strategy of a Perl-style
engine (and of the `regex` crate) on an alternation-free pattern. -/
def matchSeq : List GTok → List Char → Option Caps
  | [], s => if s = [] then some initCaps else none
  | (g, .lit c) :: rest, s =>
    match s with
    | [] => none
    | a :: s' => if a = c then (matchSeq rest s').map (addCap g [a]) else none
  | (g, .rep p lo hi) :: rest, s =>
    let m := runLen p s
    let k := min m (hi.getD m)
    if lo ≤ k then
      (descList lo k).findSome? fun j =>
        (matchSeq rest (s.drop j)).map (addCap g (s.take j))
    else none

/-! ## The token grammar `RE` of `src/main.rs` -/

/-- Token `\s+` between fields. -/
def wsPlus : GTok := (none, .rep isWsChar 1 none)

/-- A single `\s`. -/
def wsOne : GTok := (none, .rep isWsChar 1 (some 1))

/-- Token `\d+` belonging to capture group `g`. -/
def digitsTok (g : GName) : GTok := (some g, .rep isDigitChar 1 none)

/-- A literal belonging to capture group `g`. -/
def litTok (g : GName) (c : Char) : GTok := (some g, .lit c)

/-- The five `/`-joined `\d+` of groups `queues_stats` and `conn_counts`. -/
def slash5Toks (g : GName) : List GTok :=
  [digitsTok g, litTok g '/', digitsTok g, litTok g '/', digitsTok g,
   litTok g '/', digitsTok g, litTok g '/', digitsTok g]

/-- Tokens of `RE` up to the server name (the fields before the first
slash-joined numeric group). -/
def reB1 : List GTok :=
  [(some .month, .rep isAlphaChar 3 (some 3)),
   wsPlus,
   (some .day, .rep isDigitChar 1 (some 2)),
   wsPlus,
   (some .time, .rep isTimeChar 8 (some 8)),
   wsPlus,
   (some .host, .rep isWordChar 1 none),
   wsPlus,
   (some .process_id, .rep isAlnumChar 1 none),
   litTok .process_id '[',
   digitsTok .process_id,
   litTok .process_id ']',
   (none, .lit ':'),
   wsPlus,
   (some .source_ip_port, .rep isIpChar 1 none),
   litTok .source_ip_port ':',
   digitsTok .source_ip_port,
   wsPlus,
   (none, .lit '['),
   (some .time_stamp_accepted, .rep isDotChar 1 none),
   (none, .lit ']'),
   wsPlus,
   (some .frontend_name, .rep isWordChar 1 none),
   wsPlus,
   (some .backend_name, .rep isWordDashChar 1 none),
   (none, .lit '/'),
   (some .server_name, .rep isWordDashChar 1 none),
   wsPlus]

/-- The `queues_stats` group. -/
def reB2 : List GTok := slash5Toks .queues_stats

/-- Response code, bytes read, the two dash placeholders and the
termination-state group, with their separators. -/
def reB3 : List GTok :=
  [wsPlus,
   digitsTok .response_code,
   wsPlus,
   digitsTok .bytes_read,
   wsOne,
   (none, .lit '-'),
   wsOne,
   (none, .lit '-'),
   wsOne,
   (some .termination_state, .rep isWordDashChar 4 (some 4)),
   wsOne]

/-- The `conn_counts` group. -/
def reB4 : List GTok := slash5Toks .conn_counts

/-- The `queue` group and the quoted request, ending the line. -/
def reB5 : List GTok :=
  [wsPlus,
   digitsTok .queue,
   litTok .queue '/',
   digitsTok .queue,
   wsPlus,
   (none, .lit '"'),
   (some .request, .rep isDotChar 0 none),
   (none, .lit '"')]

/-- The token list of the anchored pattern `RE` (src/main.rs line 12), in
source order. -/
def reToks : List GTok :=
  reB1 ++ (reB2 ++ (reB3 ++ (reB4 ++ reB5)))

/-- Embeds `RE.captures(s)`: anchored match of the whole line. -/
def reCaptures (s : String) : Option Caps :=
  matchSeq reToks s.toList

/-! ## Rust primitives used by the decoders -/

/-- Result of a Rust function that may return `Err` (carrying its message)
or hit a panicking operation such as an unchecked index. -/
inductive RustRes (α : Type) where
  | panic
  | err (msg : String)
  | ok (a : α)
deriving DecidableEq

/-- Rust `?` on a `Result`, with panics propagated. -/
def RustRes.bind : RustRes α → (α → RustRes β) → RustRes β
  | .panic, _ => .panic
  | .err m, _ => .err m
  | .ok a, f => f a

/-- Value of a decimal digit string under left fold (junk characters
contribute `c - '0'` wrapped at `Nat` level; callers check digit-ness). -/
def digitsVal (l : List Char) : Nat :=
  l.foldl (fun acc c => acc * 10 + (c.toNat - 48)) 0

/-- Digit-run acceptance of Rust unsigned parsing: a nonempty run of
ASCII digits whose value is below `2 ^ bits` (otherwise `PosOverflow`). -/
def rustDigits (bits : Nat) (body : List Char) : Option Nat :=
  if body ≠ [] ∧ body.all isDigitChar then
    if digitsVal body < 2 ^ bits then some (digitsVal body) else none
  else none

/-- Rust `str::parse::<uN>` for an unsigned `bits`-bit integer: one optional
leading `+`, then a nonempty digit run fitting in `bits` bits.  A leading
`-`, an empty string, or any non-digit fails. -/
def rustParseUInt (bits : Nat) (l : List Char) : Option Nat :=
  rustDigits bits (if l.head? = some '+' then l.tail else l)

/-- Rust `str::parse::<u64>`. -/
def rustU64 (l : List Char) : Option Nat := rustParseUInt 64 l

/-- Rust `str::parse::<u16>`. -/
def rustU16 (l : List Char) : Option Nat := rustParseUInt 16 l

/-- Rust `str::split('/')`: the (always nonempty) list of `/`-separated
segments, empty segments included. -/
def splitSlash : List Char → List (List Char)
  | [] => [[]]
  | c :: s =>
    match splitSlash s with
    | [] => [[]]
    | seg :: rest => if c = '/' then [] :: seg :: rest else (c :: seg) :: rest

/-- Decimal digits of `n`, most significant first, by fuelled division
(the fuel `n + 1` always suffices); this is how Rust's `Display` for `u64`
renders the value. -/
def natToDecAux : Nat → Nat → List Char → List Char
  | 0, _, acc => acc
  | fuel + 1, n, acc =>
    let d := Nat.digitChar (n % 10)
    if n < 10 then d :: acc else natToDecAux fuel (n / 10) (d :: acc)

/-- Canonical decimal rendering of `n` (`Display` for `u64`). -/
def natToDec (n : Nat) : List Char := natToDecAux (n + 1) n []

/-- Embeds `parts[i].parse::<u64>()` on a `Vec` of segments: an out-of-range index
is a Rust panic, a failed parse is an `Err` propagated by `?`. -/
def idxParseU64 (parts : List (List Char)) (i : Nat) : RustRes Nat :=
  match parts.get? i with
  | none => .panic
  | some seg =>
    match rustU64 seg with
    | none => .err "invalid digit found in string"
    | some v => .ok v

/-! ## `HaproxyTimers` -/

/-- Embeds `struct HaproxyTimers` (values are `u64`, kept as `Nat` bounded below
`2 ^ 64` by the parser). -/
structure HaproxyTimers where
  raw : String
  client_request : Nat
  queue_wait : Nat
  establish : Nat
  server_response : Nat
  total : Nat
deriving DecidableEq

/-- Embeds `HaproxyTimers::parse`. -/
def HaproxyTimers.parse (s : String) : RustRes HaproxyTimers :=
  let parts := splitSlash s.toList
  if parts.length ≠ 5 then .err "Failed to parse timers"
  else
    (idxParseU64 parts 0).bind fun a =>
    (idxParseU64 parts 1).bind fun b =>
    (idxParseU64 parts 2).bind fun c =>
    (idxParseU64 parts 3).bind fun d =>
    (idxParseU64 parts 4).bind fun e =>
    .ok ⟨s, a, b, c, d, e⟩

/-- Embeds `Display` for `HaproxyTimers`: `"{}/{}/{}/{}/{}"` over the five typed
fields. -/
def HaproxyTimers.display (t : HaproxyTimers) : String :=
  String.mk (natToDec t.client_request ++ '/' :: natToDec t.queue_wait ++
    '/' :: natToDec t.establish ++ '/' :: natToDec t.server_response ++
    '/' :: natToDec t.total)

/-! ## `HaproxyTerminationState` -/

/-- Embeds `struct HaproxyTerminationStateEntry`. -/
structure HaproxyTerminationStateEntry where
  shorthand : Char
  description : String
deriving DecidableEq

/-- Embeds `HaproxyTerminationStateEntry::reason`: first character's table. -/
def HaproxyTerminationStateEntry.reason (shorthand : Char) : HaproxyTerminationStateEntry :=
  let description :=
    match shorthand with
    | 'C' => "the TCP session was unexpectedly aborted by the client."
    | 'S' => "the TCP session was unexpectedly aborted by the server, or the server explicitly refused it."
    | 'P' => "the session was prematurely aborted by the proxy, because of a connection limit enforcement, because a DENY filter was matched, because of a security check which detected and blocked a dangerous error in server response which might have caused information leak (e.g. cacheable cookie)."
    | 'L' => "the session was locally processed by HAProxy and was not passed to a server. This is what happens for stats and redirects."
    | 'R' => "a resource on the proxy has been exhausted (memory, sockets, source ports, ...). Usually, this appears during the connection phase, and system logs should contain a copy of the precise error. If this happens, it must be considered as a very serious anomaly which should be fixed as soon as possible by any means."
    | 'I' => "an internal error was identified by the proxy during a self-check. This should NEVER happen, and you are encouraged to report any log containing this, because this would almost certainly be a bug. It would be wise to preventively restart the process after such an event too, in case it would be caused by memory corruption."
    | 'D' => "the session was killed by HAProxy because the server was detected as down and was configured to kill all connections when going down."
    | 'U' => "the session was killed by HAProxy on this backup server because an active server was detected as up and was configured to kill all backup connections when going up."
    | 'K' => "the session was actively killed by an admin operating on HAProxy."
    | 'c' => "the client-side timeout expired while waiting for the client to send or receive data."
    | 's' => "the server-side timeout expired while waiting for the server to send or receive data."
    | '-' => "normal session completion, both the client and the server closed with nothing left in the buffers."
    | _ => "Unknown termination state"
  ⟨shorthand, description⟩

/-- Embeds `HaproxyTerminationStateEntry::state`: second character's table. -/
def HaproxyTerminationStateEntry.state (shorthand : Char) : HaproxyTerminationStateEntry :=
  let description :=
    match shorthand with
    | 'R' => "the proxy was waiting for a complete, valid REQUEST from the client (HTTP mode only). Nothing was sent to any server."
    | 'Q' => "the proxy was waiting in the QUEUE for a connection slot. This can only happen when servers have a 'maxconn' parameter set. It can also happen in the global queue after a redispatch consecutive to a failed attempt to connect to a dying server. If no redispatch is reported, then no connection attempt was made to any server."
    | 'C' => "the proxy was waiting for the CONNECTION to establish on the server. The server might at most have noticed a connection attempt."
    | 'H' => "the proxy was waiting for complete, valid response HEADERS from the server (HTTP only)."
    | 'D' => "the session was in the DATA phase."
    | 'L' => "the proxy was still transmitting LAST data to the client while the server had already finished. This one is very rare as it can only happen when the client dies while receiving the last packets."
    | 'T' => "the request was tarpitted. It has been held open with the client during the whole 'timeout tarpit' duration or until the client closed, both of which will be reported in the 'Tw' timer."
    | '-' => "normal session completion after end of data transfer."
    | _ => "Unknown session state"
  ⟨shorthand, description⟩

/-- Embeds `HaproxyTerminationStateEntry::cookie`: third character's table. -/
def HaproxyTerminationStateEntry.cookie (shorthand : Char) : HaproxyTerminationStateEntry :=
  let description :=
    match shorthand with
    | 'N' => "the client provided NO cookie. This is usually the case for new visitors, so counting the number of occurrences of this flag in the logs generally indicate a valid trend for the site frequentation."
    | 'I' => "the client provided an INVALID cookie matching no known server. This might be caused by a recent configuration change, mixed cookies between HTTP/HTTPS sites, persistence conditionally ignored, or an attack."
    | 'D' => "the client provided a cookie designating a server which was DOWN, so either 'option persist' was used and the client was sent to this server, or it was not set and the client was redispatched to another server."
    | 'V' => "the client provided a VALID cookie, and was sent to the associated server."
    | 'E' => "the client provided a valid cookie, but with a last date which was older than what is allowed by the 'maxidle' cookie parameter, so the cookie is consider EXPIRED and is ignored. The request will be redispatched just as if there was no cookie."
    | 'O' => "the client provided a valid cookie, but with a first date which was older than what is allowed by the 'maxlife' cookie parameter, so the cookie is consider too OLD and is ignored. The request will be redispatched just as if there was no cookie."
    | 'U' => "a cookie was present but was not used to select the server because some other server selection mechanism was used instead (typically a 'use-server' rule)."
    | '-' => "does not apply (no cookie set in configuration)."
    | _ => "Unknown cookie operation"
  ⟨shorthand, description⟩

/-- Embeds `HaproxyTerminationStateEntry::operations`: fourth character's table. -/
def HaproxyTerminationStateEntry.operations (shorthand : Char) : HaproxyTerminationStateEntry :=
  let description :=
    match shorthand with
    | 'N' => "NO cookie was provided by the server, and none was inserted either."
    | 'I' => "no cookie was provided by the server, and the proxy INSERTED one. Note that in 'cookie insert' mode, if the server provides a cookie, it will still be overwritten and reported as 'I' here."
    | 'U' => "the proxy UPDATED the last date in the cookie that was presented by the client. This can only happen in insert mode with 'maxidle'. It happens every time there is activity at a different date than the date indicated in the cookie. If any other change happens, such as a redispatch, then the cookie will be marked as inserted instead."
    | 'P' => "a cookie was PROVIDED by the server and transmitted as-is."
    | 'R' => "the cookie provided by the server was REWRITTEN by the proxy, which happens in 'cookie rewrite' or 'cookie prefix' modes."
    | 'D' => "the cookie provided by the server was DELETED by the proxy."
    | '-' => "does not apply (no cookie set in configuration)."
    | _ => "Unknown cookie operation"
  ⟨shorthand, description⟩

/-- Embeds `struct HaproxyTerminationState`. -/
structure HaproxyTerminationState where
  raw : String
  termination_reason : HaproxyTerminationStateEntry
  session_state : HaproxyTerminationStateEntry
  persistence_cookie : HaproxyTerminationStateEntry
  persistence_operations : HaproxyTerminationStateEntry
deriving DecidableEq

/-- Embeds `HaproxyTerminationState::parse`: `s.chars().nth(i).ok_or("")?` for
positions 0..3, each decoded through its own table; `raw` keeps all of
`s`. -/
def HaproxyTerminationState.parse (s : String) : RustRes HaproxyTerminationState :=
  match s.toList.get? 0 with
  | none => .err ""
  | some c0 =>
    match s.toList.get? 1 with
    | none => .err ""
    | some c1 =>
      match s.toList.get? 2 with
      | none => .err ""
      | some c2 =>
        match s.toList.get? 3 with
        | none => .err ""
        | some c3 =>
          .ok ⟨s, .reason c0, .state c1, .cookie c2, .operations c3⟩

/-- Embeds `HaproxyTerminationState::is_error`: anything other than four `-`
shorthands. -/
def HaproxyTerminationState.is_error (ts : HaproxyTerminationState) : Bool :=
  !(ts.termination_reason.shorthand = '-' && ts.session_state.shorthand = '-' &&
    ts.persistence_cookie.shorthand = '-' && ts.persistence_operations.shorthand = '-')

/-- Embeds `Display` for `HaproxyTerminationState`: the four shorthands
concatenated. -/
def HaproxyTerminationState.display (ts : HaproxyTerminationState) : String :=
  String.mk [ts.termination_reason.shorthand, ts.session_state.shorthand,
    ts.persistence_cookie.shorthand, ts.persistence_operations.shorthand]

/-! ## `HaproxyConnectionCounts` and `HaproxyQueueStats` -/

/-- Embeds `struct HaproxyConnectionCounts`. -/
structure HaproxyConnectionCounts where
  raw : String
  current : Nat
  limit : Nat
  max : Nat
  total : Nat
  rejected : Nat
deriving DecidableEq

/-- Embeds `HaproxyConnectionCounts::parse`. -/
def HaproxyConnectionCounts.parse (s : String) : RustRes HaproxyConnectionCounts :=
  let parts := splitSlash s.toList
  if parts.length ≠ 5 then .err "Failed to parse connection counts"
  else
    (idxParseU64 parts 0).bind fun a =>
    (idxParseU64 parts 1).bind fun b =>
    (idxParseU64 parts 2).bind fun c =>
    (idxParseU64 parts 3).bind fun d =>
    (idxParseU64 parts 4).bind fun e =>
    .ok ⟨s, a, b, c, d, e⟩

/-- Embeds `Display` for `HaproxyConnectionCounts`. -/
def HaproxyConnectionCounts.display (c : HaproxyConnectionCounts) : String :=
  String.mk (natToDec c.current ++ '/' :: natToDec c.limit ++
    '/' :: natToDec c.max ++ '/' :: natToDec c.total ++
    '/' :: natToDec c.rejected)

/-- Embeds `struct HaproxyQueueStats`: only the two typed integers, no `raw`
field. -/
structure HaproxyQueueStats where
  server : Nat
  backend : Nat
deriving DecidableEq

/-- Embeds `HaproxyQueueStats::parse`. -/
def HaproxyQueueStats.parse (s : String) : RustRes HaproxyQueueStats :=
  let parts := splitSlash s.toList
  if parts.length ≠ 2 then .err "Failed to parse queue stats"
  else
    (idxParseU64 parts 0).bind fun a =>
    (idxParseU64 parts 1).bind fun b =>
    .ok ⟨a, b⟩

/-- Embeds `Display` for `HaproxyQueueStats`. -/
def HaproxyQueueStats.display (q : HaproxyQueueStats) : String :=
  String.mk (natToDec q.server ++ '/' :: natToDec q.backend)

/-! ## `HaproxyLogEntry` -/

/-- Embeds `struct HaproxyLogEntry` (src/haproxy.rs). -/
structure HaproxyLogEntry where
  month : String
  day : String
  time : String
  host : String
  process_id : String
  source_ip_port : String
  time_stamp_accepted : String
  frontend_name : String
  backend_name : String
  server_name : String
  timers : HaproxyTimers
  response_code : String
  bytes_read : String
  termination_state : HaproxyTerminationState
  conn_counts : HaproxyConnectionCounts
  queue : HaproxyQueueStats
  request : String
deriving DecidableEq

/-- Embeds `HaproxyLogEntry::parse`: match `RE`, then run the sub-decoders in
field order (timers from the `queues_stats` group, then termination state,
connection counts and queue stats), failing fast on the first error.  In a
successful match of this pattern every named group participates, so the
`captures.name(...).ok_or("")?` accesses always succeed. -/
def HaproxyLogEntry.parse (s : String) : RustRes HaproxyLogEntry :=
  match reCaptures s with
  | none => .err "Failed to parse line"
  | some caps =>
    (HaproxyTimers.parse (String.mk caps.queues_stats)).bind fun timers =>
    (HaproxyTerminationState.parse (String.mk caps.termination_state)).bind fun ts =>
    (HaproxyConnectionCounts.parse (String.mk caps.conn_counts)).bind fun cc =>
    (HaproxyQueueStats.parse (String.mk caps.queue)).bind fun qs =>
    .ok ⟨String.mk caps.month, String.mk caps.day, String.mk caps.time,
      String.mk caps.host, String.mk caps.process_id,
      String.mk caps.source_ip_port, String.mk caps.time_stamp_accepted,
      String.mk caps.frontend_name, String.mk caps.backend_name,
      String.mk caps.server_name, timers, String.mk caps.response_code,
      String.mk caps.bytes_read, ts, cc, qs, String.mk caps.request⟩

/-- Embeds `HaproxyLogEntry::colorless`: `"{} {} ... {}"` over the seventeen
fields in declaration order, the nested structures through their `Display`
impls. -/
def HaproxyLogEntry.colorless (e : HaproxyLogEntry) : String :=
  String.intercalate " "
    [e.month, e.day, e.time, e.host, e.process_id, e.source_ip_port,
     e.time_stamp_accepted, e.frontend_name, e.backend_name, e.server_name,
     e.timers.display, e.response_code, e.bytes_read,
     e.termination_state.display, e.conn_counts.display, e.queue.display,
     e.request]

/-- Embeds `HaproxyLogEntry::is_error`: response code unparseable as `u16`, or
at least 400, or an error termination state. -/
def HaproxyLogEntry.is_error (e : HaproxyLogEntry) : Bool :=
  match rustU16 e.response_code.toList with
  | some code => decide (400 ≤ code) || e.termination_state.is_error
  | none => true

/-! ## Soundness of the matcher

`matchSeq` only accepts lines that decompose, token by token, into chunks
from each token's language, with each capture group collecting its own
tokens' chunks. -/

/-- The language of one token. -/
def TokMatches : RTok → List Char → Prop
  | .lit c, l => l = [c]
  | .rep p lo hi, l =>
    (∀ c ∈ l, p c = true) ∧ lo ≤ l.length ∧ ∀ h, hi = some h → l.length ≤ h

/-- A token sequence matches a string with given captures. -/
inductive SeqMatch : List GTok → List Char → Caps → Prop where
  | nil : SeqMatch [] [] initCaps
  | cons {g : Option GName} {t : RTok} {l : List Char} {rest : List GTok}
      {s : List Char} {caps : Caps} :
      TokMatches t l → SeqMatch rest s caps →
      SeqMatch ((g, t) :: rest) (l ++ s) (addCap g l caps)

theorem runLen_le_length (p : Char → Bool) (s : List Char) :
    runLen p s ≤ s.length := by
  induction s with
  | nil => simp [runLen]
  | cons c s ih =>
    simp only [runLen, List.length_cons]
    split <;> omega

theorem sat_of_take_runLen (p : Char → Bool) (s : List Char) (k : Nat)
    (hk : k ≤ runLen p s) : ∀ c ∈ s.take k, p c = true := by
  induction s generalizing k with
  | nil => simp
  | cons a s ih =>
    match k, hk with
    | 0, _ => simp
    | k + 1, hk =>
      simp only [runLen] at hk
      split at hk
      · next hpa =>
        intro c hc
        simp only [List.take_succ_cons, List.mem_cons] at hc
        rcases hc with rfl | hc
        · exact hpa
        · exact ih k (by omega) c hc
      · omega

theorem exists_of_findSome {α β : Type _} {f : α → Option β} {l : List α}
    {b : β} (h : l.findSome? f = some b) : ∃ a ∈ l, f a = some b := by
  induction l with
  | nil => simp [List.findSome?] at h
  | cons a as ih =>
    rw [List.findSome?_cons] at h
    cases hfa : f a with
    | some c =>
      rw [hfa] at h
      cases h
      exact ⟨a, by simp, hfa⟩
    | none =>
      rw [hfa] at h
      obtain ⟨x, hx, hfx⟩ := ih h
      exact ⟨x, by simp [hx], hfx⟩

theorem mem_descList {lo k j : Nat} (h : j ∈ descList lo k) :
    lo ≤ j ∧ j ≤ k := by
  simp only [descList, List.mem_map, List.mem_range] at h
  obtain ⟨i, hi, rfl⟩ := h
  omega

theorem matchSeq_sound {toks : List GTok} {s : List Char} {caps : Caps}
    (h : matchSeq toks s = some caps) : SeqMatch toks s caps := by
  induction toks generalizing s caps with
  | nil =>
    simp only [matchSeq] at h
    split at h
    · next hs =>
      cases h
      subst hs
      exact SeqMatch.nil
    · cases h
  | cons tok rest ih =>
    obtain ⟨g, t⟩ := tok
    cases t with
    | lit c =>
      cases s with
      | nil => simp [matchSeq] at h
      | cons a s' =>
        simp only [matchSeq] at h
        split at h
        · next hac =>
          rw [Option.map_eq_some'] at h
          obtain ⟨caps', hm, rfl⟩ := h
          exact SeqMatch.cons (t := .lit c) (l := [a])
            (by show [a] = [c]; rw [hac]) (ih hm)
        · cases h
    | rep p lo hi =>
      simp only [matchSeq] at h
      split at h
      · next hlo =>
        obtain ⟨j, hj, hfj⟩ := exists_of_findSome h
        obtain ⟨hloj, hjk⟩ := mem_descList hj
        rw [Option.map_eq_some'] at hfj
        obtain ⟨caps', hm, rfl⟩ := hfj
        have hjr : j ≤ runLen p s := by omega
        have hjl : j ≤ s.length := le_trans hjr (runLen_le_length p s)
        have htm : TokMatches (.rep p lo hi) (s.take j) := by
          refine ⟨sat_of_take_runLen p s j hjr, ?_, ?_⟩
          · rw [List.length_take]
            omega
          · intro hb hhi
            subst hhi
            rw [List.length_take]
            simp only [Option.getD] at hjk
            omega
        have := SeqMatch.cons (g := g) htm (ih hm)
        rwa [List.take_append_drop] at this
      · cases h

theorem isDigitChar_iff {c : Char} :
    isDigitChar c = true ↔ 48 ≤ c.toNat ∧ c.toNat ≤ 57 := by
  unfold isDigitChar
  rw [Bool.and_eq_true, decide_eq_true_eq, decide_eq_true_eq]
  exact Iff.rfl

theorem char_eq_of_toNat_eq {a b : Char} (h : a.toNat = b.toNat) : a = b := by
  apply Char.eq_of_val_eq
  apply UInt32.ext
  exact h

theorem digitChar_toNat {d : Nat} (h : d < 10) :
    (Nat.digitChar d).toNat = 48 + d := by
  interval_cases d <;> rfl

theorem isDigitChar_digitChar {d : Nat} (h : d < 10) :
    isDigitChar (Nat.digitChar d) = true := by
  interval_cases d <;> rfl

theorem digitChar_of_isDigit {c : Char} (h : isDigitChar c = true) :
    Nat.digitChar (c.toNat - 48) = c := by
  rw [isDigitChar_iff] at h
  apply char_eq_of_toNat_eq
  rw [digitChar_toNat (by omega)]
  omega

theorem digitsVal_append_singleton (l : List Char) (c : Char) :
    digitsVal (l ++ [c]) = 10 * digitsVal l + (c.toNat - 48) := by
  simp only [digitsVal, List.foldl_append, List.foldl]
  omega

theorem digitsVal_singleton (c : Char) : digitsVal [c] = c.toNat - 48 := by
  simp [digitsVal, List.foldl]

/-- The fold of `digitsVal` never drops below its accumulator. -/
theorem digitsVal_foldl_ge (l : List Char) :
    ∀ acc, acc ≤ l.foldl (fun acc c => acc * 10 + (c.toNat - 48)) acc := by
  induction l with
  | nil => simp
  | cons c l ih =>
    intro acc
    calc acc ≤ acc * 10 + (c.toNat - 48) := by omega
    _ ≤ _ := ih _

theorem digitsVal_pos {l : List Char} (hne : l ≠ [])
    (hdig : ∀ c ∈ l, isDigitChar c = true)
    (hlead : l.head? ≠ some '0') : 1 ≤ digitsVal l := by
  match l, hne with
  | c :: rest, _ =>
    have hc : isDigitChar c = true := hdig c (by simp)
    rw [isDigitChar_iff] at hc
    have hc0 : c ≠ '0' := by
      intro h
      exact hlead (by rw [h]; rfl)
    have : c.toNat ≠ 48 := by
      intro h
      exact hc0 (char_eq_of_toNat_eq (by rw [h]; rfl))
    calc 1 ≤ c.toNat - 48 := by omega
    _ = digitsVal [c] := (digitsVal_singleton c).symm
    _ ≤ digitsVal (c :: rest) := digitsVal_foldl_ge rest _

theorem natToDecAux_spec (fuel : Nat) : ∀ n acc, n < fuel →
    ∃ ds, natToDecAux fuel n acc = ds ++ acc ∧ ds ≠ [] ∧
      (∀ c ∈ ds, isDigitChar c = true) ∧ digitsVal ds = n ∧
      (ds.head? = some '0' → n = 0) := by
  induction fuel with
  | zero => omega
  | succ fuel ih =>
    intro n acc h
    by_cases h10 : n < 10
    · refine ⟨[Nat.digitChar (n % 10)], ?_, by simp, ?_, ?_, ?_⟩
      · simp [natToDecAux, h10]
      · intro c hc
        simp only [List.mem_singleton] at hc
        subst hc
        exact isDigitChar_digitChar (by omega)
      · rw [digitsVal_singleton, digitChar_toNat (by omega)]
        omega
      · intro hh
        simp only [List.head?_cons, Option.some.injEq] at hh
        have h48 := congrArg Char.toNat hh
        rw [digitChar_toNat (by omega)] at h48
        have hz : ('0' : Char).toNat = 48 := rfl
        omega
    · have hdiv : n / 10 < fuel := by omega
      obtain ⟨ds, heq, hne, hdig, hval, hhead⟩ :=
        ih (n / 10) (Nat.digitChar (n % 10) :: acc) hdiv
      refine ⟨ds ++ [Nat.digitChar (n % 10)], ?_, by simp, ?_, ?_, ?_⟩
      · rw [natToDecAux, if_neg h10, heq]
        simp
      · intro c hc
        rcases List.mem_append.mp hc with hc | hc
        · exact hdig c hc
        · simp only [List.mem_singleton] at hc
          subst hc
          exact isDigitChar_digitChar (by omega)
      · rw [digitsVal_append_singleton, hval, digitChar_toNat (by omega)]
        omega
      · intro hh
        have hds : ds.head? = some '0' := by
          match ds, hne with
          | d :: ds', _ => simpa using hh
        have h0 := hhead hds
        omega

theorem natToDec_spec (n : Nat) :
    natToDec n ≠ [] ∧ (∀ c ∈ natToDec n, isDigitChar c = true) ∧
      digitsVal (natToDec n) = n ∧ ((natToDec n).head? = some '0' → n = 0) := by
  obtain ⟨ds, heq, hne, hdig, hval, hhead⟩ :=
    natToDecAux_spec (n + 1) n [] (by omega)
  rw [natToDec, heq, List.append_nil]
  exact ⟨hne, hdig, hval, hhead⟩

/-- The accumulator of `natToDecAux` is a suffix it never inspects. -/
theorem natToDecAux_acc (fuel : Nat) : ∀ n acc, n < fuel →
    natToDecAux fuel n acc = natToDecAux fuel n [] ++ acc := by
  induction fuel with
  | zero => omega
  | succ fuel ih =>
    intro n acc h
    by_cases h10 : n < 10
    · simp [natToDecAux, h10]
    · have hdiv : n / 10 < fuel := by omega
      rw [natToDecAux, if_neg h10, natToDecAux, if_neg h10,
        ih (n / 10) _ hdiv, ih (n / 10) [Nat.digitChar (n % 10)] hdiv]
      simp

/-- The function `natToDecAux` ignores fuel beyond `n`. -/
theorem natToDecAux_fuel (f1 : Nat) : ∀ f2 n acc, n < f1 → n < f2 →
    natToDecAux f1 n acc = natToDecAux f2 n acc := by
  induction f1 with
  | zero => omega
  | succ f1 ih =>
    intro f2 n acc h1 h2
    match f2, h2 with
    | f2 + 1, h2 =>
      by_cases h10 : n < 10
      · simp [natToDecAux, h10]
      · rw [natToDecAux, if_neg h10, natToDecAux, if_neg h10,
          ih f2 (n / 10) _ (by omega) (by omega)]

theorem natToDec_lt10 {n : Nat} (h : n < 10) :
    natToDec n = [Nat.digitChar n] := by
  rw [natToDec, natToDecAux, if_pos h, Nat.mod_eq_of_lt h]

/-- Uniqueness of decimal renderings: a nonempty all-digit string without
a leading zero (other than `"0"` itself) is the canonical rendering of its
value. -/
theorem natToDec_digitsVal {l : List Char} (hne : l ≠ [])
    (hdig : ∀ c ∈ l, isDigitChar c = true)
    (hlead : l.head? = some '0' → l = ['0']) :
    natToDec (digitsVal l) = l := by
  induction l using List.reverseRecOn with
  | nil => exact absurd rfl hne
  | append_singleton xs c ih =>
    have hc : isDigitChar c = true := hdig c (by simp)
    have hcb := isDigitChar_iff.mp hc
    by_cases hxs : xs = []
    · subst hxs
      simp only [List.nil_append]
      rw [digitsVal_singleton]
      have h10 : c.toNat - 48 < 10 := by omega
      rw [natToDec_lt10 h10, digitChar_of_isDigit hc]
    · have hdx : ∀ a ∈ xs, isDigitChar a = true := fun a ha =>
        hdig a (List.mem_append.mpr (Or.inl ha))
      have hheadx : xs.head? ≠ some '0' := by
        intro h0
        have hx0 : (xs ++ [c]).head? = some '0' := by
          match xs, hxs with
          | x :: xs', _ => simpa using h0
        have h00 := hlead hx0
        have hlen : xs.length + 1 = 1 := by
          simpa using congrArg List.length h00
        exact hxs (List.eq_nil_of_length_eq_zero (by omega))
      have hleadx : xs.head? = some '0' → xs = ['0'] := fun h =>
        absurd h hheadx
      have ihx := ih hxs hdx hleadx
      have hv1 : 1 ≤ digitsVal xs := digitsVal_pos hxs hdx hheadx
      rw [digitsVal_append_singleton]
      have hd10 : c.toNat - 48 < 10 := by omega
      have hbig : ¬ (10 * digitsVal xs + (c.toNat - 48) < 10) := by omega
      rw [natToDec, natToDecAux, if_neg hbig]
      have hq : (10 * digitsVal xs + (c.toNat - 48)) / 10 = digitsVal xs := by
        omega
      have hr : (10 * digitsVal xs + (c.toNat - 48)) % 10 = c.toNat - 48 := by
        omega
      rw [hq, hr]
      rw [natToDecAux_fuel (10 * digitsVal xs + (c.toNat - 48))
          (digitsVal xs + 1) (digitsVal xs) _ (by omega) (by omega),
        natToDecAux_acc (digitsVal xs + 1) (digitsVal xs) _ (by omega)]
      rw [show natToDecAux (digitsVal xs + 1) (digitsVal xs) [] =
          natToDec (digitsVal xs) from rfl, ihx]
      rw [digitChar_of_isDigit hc]

theorem rustDigits_some_iff {bits : Nat} {body : List Char} {v : Nat} :
    rustDigits bits body = some v ↔
      body ≠ [] ∧ (∀ c ∈ body, isDigitChar c = true) ∧
        digitsVal body = v ∧ v < 2 ^ bits := by
  unfold rustDigits
  by_cases h1 : body ≠ [] ∧ body.all isDigitChar
  · rw [if_pos h1]
    by_cases h2 : digitsVal body < 2 ^ bits
    · rw [if_pos h2]
      constructor
      · intro h
        injection h with h
        exact ⟨h1.1, List.all_eq_true.mp h1.2, h, h ▸ h2⟩
      · rintro ⟨-, -, rfl, -⟩
        rfl
    · rw [if_neg h2]
      constructor
      · intro h
        cases h
      · rintro ⟨-, -, rfl, hv⟩
        exact absurd hv h2
  · rw [if_neg h1]
    constructor
    · intro h
      cases h
    · rintro ⟨hne, hdig, -, -⟩
      exact absurd ⟨hne, List.all_eq_true.mpr hdig⟩ h1

/-- Rust `u64` parsing succeeds on a plain digit string below the bound
and returns its value. -/
theorem rustU64_digits {l : List Char} (hne : l ≠ [])
    (hdig : ∀ c ∈ l, isDigitChar c = true)
    (hlt : digitsVal l < 2 ^ 64) :
    rustU64 l = some (digitsVal l) := by
  have hhead : l.head? ≠ some '+' := by
    match l, hne with
    | c :: rest, _ =>
      intro hc
      rw [List.head?_cons] at hc
      injection hc with hc
      subst hc
      exact absurd (hdig '+' (by simp)) (by decide)
  unfold rustU64 rustParseUInt
  rw [if_neg hhead]
  exact rustDigits_some_iff.mpr ⟨hne, hdig, rfl, hlt⟩

/-! ## Splitting on `/` -/

theorem splitSlash_ne_nil (l : List Char) : splitSlash l ≠ [] := by
  cases l with
  | nil => simp [splitSlash]
  | cons c s =>
    rw [splitSlash]
    split
    · simp
    · split <;> simp

theorem splitSlash_noSlash {l : List Char} (h : ∀ c ∈ l, c ≠ '/') :
    splitSlash l = [l] := by
  induction l with
  | nil => rfl
  | cons c s ih =>
    have hc : c ≠ '/' := h c (by simp)
    rw [splitSlash, ih (fun a ha => h a (by simp [ha]))]
    simp [hc]

theorem splitSlash_append {a : List Char} (r : List Char)
    (h : ∀ c ∈ a, c ≠ '/') :
    splitSlash (a ++ '/' :: r) = a :: splitSlash r := by
  induction a with
  | nil =>
    simp only [List.nil_append]
    rw [splitSlash]
    cases hs : splitSlash r with
    | nil => exact absurd hs (splitSlash_ne_nil r)
    | cons seg rest => simp
  | cons c a ih =>
    have hc : c ≠ '/' := h c (by simp)
    rw [List.cons_append, splitSlash, ih (fun x hx => h x (by simp [hx]))]
    simp [hc]

/-- A nonempty all-digit segment. -/
def DigitSeg (l : List Char) : Prop :=
  l ≠ [] ∧ ∀ c ∈ l, isDigitChar c = true

/-- Five digit segments joined by `/` (the shape of the `queues_stats`
and `conn_counts` capture groups). -/
def Slash5 (l : List Char) : Prop :=
  ∃ a b c d e, DigitSeg a ∧ DigitSeg b ∧ DigitSeg c ∧ DigitSeg d ∧
    DigitSeg e ∧
    l = a ++ ('/' :: (b ++ ('/' :: (c ++ ('/' :: (d ++ ('/' :: e)))))))

/-- Two digit segments joined by `/` (the shape of the `queue` group). -/
def Slash2 (l : List Char) : Prop :=
  ∃ a b, DigitSeg a ∧ DigitSeg b ∧ l = a ++ ('/' :: b)

theorem digit_ne_slash {c : Char} (h : isDigitChar c = true) : c ≠ '/' := by
  intro he
  subst he
  exact absurd h (by decide)

theorem digitSeg_ne_slash {l : List Char} (h : DigitSeg l) :
    ∀ c ∈ l, c ≠ '/' :=
  fun c hc => digit_ne_slash (h.2 c hc)

theorem splitSlash_slash5 {a b c d e : List Char}
    (ha : DigitSeg a) (hb : DigitSeg b) (hc : DigitSeg c) (hd : DigitSeg d)
    (he : DigitSeg e) :
    splitSlash
      (a ++ ('/' :: (b ++ ('/' :: (c ++ ('/' :: (d ++ ('/' :: e)))))))) =
      [a, b, c, d, e] := by
  rw [splitSlash_append _ (digitSeg_ne_slash ha),
    splitSlash_append _ (digitSeg_ne_slash hb),
    splitSlash_append _ (digitSeg_ne_slash hc),
    splitSlash_append _ (digitSeg_ne_slash hd),
    splitSlash_noSlash (digitSeg_ne_slash he)]

theorem splitSlash_slash2 {a b : List Char} (ha : DigitSeg a)
    (hb : DigitSeg b) :
    splitSlash (a ++ ('/' :: b)) = [a, b] := by
  rw [splitSlash_append _ (digitSeg_ne_slash ha),
    splitSlash_noSlash (digitSeg_ne_slash hb)]

/-! ## Success characterizations of the sub-field decoders -/

theorem length_eq_five {α : Type _} {l : List α} (h : l.length = 5) :
    ∃ a b c d e, l = [a, b, c, d, e] := by
  match l with
  | [a, b, c, d, e] => exact ⟨a, b, c, d, e, rfl⟩
  | [] | [_] | [_, _] | [_, _, _] | [_, _, _, _] => simp at h
  | _ :: _ :: _ :: _ :: _ :: _ :: _ => simp at h

theorem length_eq_two {α : Type _} {l : List α} (h : l.length = 2) :
    ∃ a b, l = [a, b] := by
  match l with
  | [a, b] => exact ⟨a, b, rfl⟩
  | [] | [_] => simp at h
  | _ :: _ :: _ :: _ => simp at h

/-- A segment accepted by Rust `u64` parsing: an optional leading `+`,
then a nonempty digit string whose value fits in 64 bits. -/
def RustUIntSeg (seg : List Char) : Prop :=
  ∃ d, (seg = d ∨ seg = '+' :: d) ∧ d ≠ [] ∧
    (∀ c ∈ d, isDigitChar c = true) ∧ digitsVal d < 2 ^ 64

theorem rustU64_some_iff {seg : List Char} :
    (∃ v, rustU64 seg = some v) ↔ RustUIntSeg seg := by
  unfold rustU64 rustParseUInt RustUIntSeg
  cases seg with
  | nil =>
    rw [if_neg (by simp)]
    constructor
    · rintro ⟨v, hv⟩
      exact absurd rfl (rustDigits_some_iff.mp hv).1
    · rintro ⟨d, hd, hne, -, -⟩
      rcases hd with rfl | hd
      · exact absurd rfl hne
      · simp at hd
  | cons c rest =>
    by_cases hc : c = '+'
    · subst hc
      rw [if_pos (by simp), List.tail_cons]
      constructor
      · rintro ⟨v, hv⟩
        obtain ⟨hne, hdig, hval, hlt⟩ := rustDigits_some_iff.mp hv
        exact ⟨rest, Or.inr rfl, hne, hdig, hval ▸ hlt⟩
      · rintro ⟨d, hd, hne, hdig, hlt⟩
        rcases hd with hd | hd
        · subst hd
          exact absurd (hdig '+' (by simp)) (by decide)
        · injection hd with hd1 hd2
          subst hd2
          exact ⟨digitsVal rest, rustDigits_some_iff.mpr ⟨hne, hdig, rfl, hlt⟩⟩
    · rw [if_neg (by simp [hc])]
      constructor
      · rintro ⟨v, hv⟩
        obtain ⟨hne, hdig, hval, hlt⟩ := rustDigits_some_iff.mp hv
        exact ⟨c :: rest, Or.inl rfl, hne, hdig, hval ▸ hlt⟩
      · rintro ⟨d, hd, hne, hdig, hlt⟩
        rcases hd with hd | hd
        · rw [hd]
          exact ⟨digitsVal d, rustDigits_some_iff.mpr ⟨hne, hdig, rfl, hlt⟩⟩
        · injection hd with hd1 hd2
          exact absurd hd1 hc

theorem timers_parse_ok_iff (s : String) :
    (∃ t, HaproxyTimers.parse s = .ok t) ↔
      ((splitSlash s.toList).length = 5 ∧
        ∀ seg ∈ splitSlash s.toList, ∃ v, rustU64 seg = some v) := by
  constructor
  · rintro ⟨t, ht⟩
    simp only [HaproxyTimers.parse] at ht
    split at ht
    · simp at ht
    · next hlen =>
      have h5 : (splitSlash s.toList).length = 5 := by omega
      refine ⟨h5, ?_⟩
      obtain ⟨a, b, c, d, e, henum⟩ := length_eq_five h5
      rw [henum] at ht ⊢
      simp only [idxParseU64, List.get?] at ht
      intro seg hseg
      simp only [List.mem_cons, List.not_mem_nil, or_false] at hseg
      cases h1 : rustU64 a <;> rw [h1] at ht <;>
        [skip; cases h2 : rustU64 b <;> rw [h2] at ht <;>
          [skip; cases h3 : rustU64 c <;> rw [h3] at ht <;>
            [skip; cases h4 : rustU64 d <;> rw [h4] at ht <;>
              [skip; cases h5' : rustU64 e <;> rw [h5'] at ht]]]] <;>
        simp only [RustRes.bind] at ht
      · cases ht
      · cases ht
      · cases ht
      · cases ht
      · cases ht
      · rcases hseg with rfl | rfl | rfl | rfl | rfl
        · exact ⟨_, h1⟩
        · exact ⟨_, h2⟩
        · exact ⟨_, h3⟩
        · exact ⟨_, h4⟩
        · exact ⟨_, h5'⟩
  · rintro ⟨h5, hsegs⟩
    obtain ⟨a, b, c, d, e, henum⟩ := length_eq_five h5
    rw [henum] at hsegs
    obtain ⟨v1, hv1⟩ := hsegs a (by simp)
    obtain ⟨v2, hv2⟩ := hsegs b (by simp)
    obtain ⟨v3, hv3⟩ := hsegs c (by simp)
    obtain ⟨v4, hv4⟩ := hsegs d (by simp)
    obtain ⟨v5, hv5⟩ := hsegs e (by simp)
    refine ⟨⟨s, v1, v2, v3, v4, v5⟩, ?_⟩
    simp only [HaproxyTimers.parse, henum]
    rw [if_neg (by simp)]
    simp only [idxParseU64, List.get?, hv1, hv2, hv3, hv4, hv5, RustRes.bind]

theorem conn_parse_ok_iff (s : String) :
    (∃ t, HaproxyConnectionCounts.parse s = .ok t) ↔
      ((splitSlash s.toList).length = 5 ∧
        ∀ seg ∈ splitSlash s.toList, ∃ v, rustU64 seg = some v) := by
  constructor
  · rintro ⟨t, ht⟩
    simp only [HaproxyConnectionCounts.parse] at ht
    split at ht
    · simp at ht
    · next hlen =>
      have h5 : (splitSlash s.toList).length = 5 := by omega
      refine ⟨h5, ?_⟩
      obtain ⟨a, b, c, d, e, henum⟩ := length_eq_five h5
      rw [henum] at ht ⊢
      simp only [idxParseU64, List.get?] at ht
      intro seg hseg
      simp only [List.mem_cons, List.not_mem_nil, or_false] at hseg
      cases h1 : rustU64 a <;> rw [h1] at ht <;>
        [skip; cases h2 : rustU64 b <;> rw [h2] at ht <;>
          [skip; cases h3 : rustU64 c <;> rw [h3] at ht <;>
            [skip; cases h4 : rustU64 d <;> rw [h4] at ht <;>
              [skip; cases h5' : rustU64 e <;> rw [h5'] at ht]]]] <;>
        simp only [RustRes.bind] at ht
      · cases ht
      · cases ht
      · cases ht
      · cases ht
      · cases ht
      · rcases hseg with rfl | rfl | rfl | rfl | rfl
        · exact ⟨_, h1⟩
        · exact ⟨_, h2⟩
        · exact ⟨_, h3⟩
        · exact ⟨_, h4⟩
        · exact ⟨_, h5'⟩
  · rintro ⟨h5, hsegs⟩
    obtain ⟨a, b, c, d, e, henum⟩ := length_eq_five h5
    rw [henum] at hsegs
    obtain ⟨v1, hv1⟩ := hsegs a (by simp)
    obtain ⟨v2, hv2⟩ := hsegs b (by simp)
    obtain ⟨v3, hv3⟩ := hsegs c (by simp)
    obtain ⟨v4, hv4⟩ := hsegs d (by simp)
    obtain ⟨v5, hv5⟩ := hsegs e (by simp)
    refine ⟨⟨s, v1, v2, v3, v4, v5⟩, ?_⟩
    simp only [HaproxyConnectionCounts.parse, henum]
    rw [if_neg (by simp)]
    simp only [idxParseU64, List.get?, hv1, hv2, hv3, hv4, hv5, RustRes.bind]

theorem queue_parse_ok_iff (s : String) :
    (∃ q, HaproxyQueueStats.parse s = .ok q) ↔
      ((splitSlash s.toList).length = 2 ∧
        ∀ seg ∈ splitSlash s.toList, ∃ v, rustU64 seg = some v) := by
  constructor
  · rintro ⟨q, hq⟩
    simp only [HaproxyQueueStats.parse] at hq
    split at hq
    · simp at hq
    · next hlen =>
      have h2 : (splitSlash s.toList).length = 2 := by omega
      refine ⟨h2, ?_⟩
      obtain ⟨a, b, henum⟩ := length_eq_two h2
      rw [henum] at hq ⊢
      simp only [idxParseU64, List.get?] at hq
      intro seg hseg
      simp only [List.mem_cons, List.not_mem_nil, or_false] at hseg
      cases h1 : rustU64 a <;> rw [h1] at hq <;>
        [skip; cases h2' : rustU64 b <;> rw [h2'] at hq] <;>
        simp only [RustRes.bind] at hq
      · cases hq
      · cases hq
      · rcases hseg with rfl | rfl
        · exact ⟨_, h1⟩
        · exact ⟨_, h2'⟩
  · rintro ⟨h2, hsegs⟩
    obtain ⟨a, b, henum⟩ := length_eq_two h2
    rw [henum] at hsegs
    obtain ⟨v1, hv1⟩ := hsegs a (by simp)
    obtain ⟨v2, hv2⟩ := hsegs b (by simp)
    refine ⟨⟨v1, v2⟩, ?_⟩
    simp only [HaproxyQueueStats.parse, henum]
    rw [if_neg (by simp)]
    simp only [idxParseU64, List.get?, hv1, hv2, RustRes.bind]

/-! ## Direct evaluation of the decoders on well-shaped groups -/

theorem timers_parse_slash5 {a b c d e : List Char}
    (ha : DigitSeg a) (hb : DigitSeg b) (hc : DigitSeg c) (hd : DigitSeg d)
    (he : DigitSeg e)
    (b1 : digitsVal a < 2 ^ 64) (b2 : digitsVal b < 2 ^ 64)
    (b3 : digitsVal c < 2 ^ 64) (b4 : digitsVal d < 2 ^ 64)
    (b5 : digitsVal e < 2 ^ 64) :
    HaproxyTimers.parse (String.mk
        (a ++ ('/' :: (b ++ ('/' :: (c ++ ('/' :: (d ++ ('/' :: e))))))))) =
      .ok ⟨String.mk
          (a ++ ('/' :: (b ++ ('/' :: (c ++ ('/' :: (d ++ ('/' :: e)))))))),
        digitsVal a, digitsVal b, digitsVal c, digitsVal d, digitsVal e⟩ := by
  have hsplit : splitSlash (String.mk
      (a ++ ('/' :: (b ++ ('/' :: (c ++ ('/' :: (d ++ ('/' :: e))))))))).toList =
      [a, b, c, d, e] := splitSlash_slash5 ha hb hc hd he
  simp only [HaproxyTimers.parse, hsplit]
  rw [if_neg (by simp)]
  simp only [idxParseU64, List.get?, rustU64_digits ha.1 ha.2 b1,
    rustU64_digits hb.1 hb.2 b2, rustU64_digits hc.1 hc.2 b3,
    rustU64_digits hd.1 hd.2 b4, rustU64_digits he.1 he.2 b5, RustRes.bind]

theorem conn_parse_slash5 {a b c d e : List Char}
    (ha : DigitSeg a) (hb : DigitSeg b) (hc : DigitSeg c) (hd : DigitSeg d)
    (he : DigitSeg e)
    (b1 : digitsVal a < 2 ^ 64) (b2 : digitsVal b < 2 ^ 64)
    (b3 : digitsVal c < 2 ^ 64) (b4 : digitsVal d < 2 ^ 64)
    (b5 : digitsVal e < 2 ^ 64) :
    HaproxyConnectionCounts.parse (String.mk
        (a ++ ('/' :: (b ++ ('/' :: (c ++ ('/' :: (d ++ ('/' :: e))))))))) =
      .ok ⟨String.mk
          (a ++ ('/' :: (b ++ ('/' :: (c ++ ('/' :: (d ++ ('/' :: e)))))))),
        digitsVal a, digitsVal b, digitsVal c, digitsVal d, digitsVal e⟩ := by
  have hsplit : splitSlash (String.mk
      (a ++ ('/' :: (b ++ ('/' :: (c ++ ('/' :: (d ++ ('/' :: e))))))))).toList =
      [a, b, c, d, e] := splitSlash_slash5 ha hb hc hd he
  simp only [HaproxyConnectionCounts.parse, hsplit]
  rw [if_neg (by simp)]
  simp only [idxParseU64, List.get?, rustU64_digits ha.1 ha.2 b1,
    rustU64_digits hb.1 hb.2 b2, rustU64_digits hc.1 hc.2 b3,
    rustU64_digits hd.1 hd.2 b4, rustU64_digits he.1 he.2 b5, RustRes.bind]

theorem queue_parse_slash2 {a b : List Char}
    (ha : DigitSeg a) (hb : DigitSeg b)
    (b1 : digitsVal a < 2 ^ 64) (b2 : digitsVal b < 2 ^ 64) :
    HaproxyQueueStats.parse (String.mk (a ++ ('/' :: b))) =
      .ok ⟨digitsVal a, digitsVal b⟩ := by
  have hsplit : splitSlash (String.mk (a ++ ('/' :: b))).toList = [a, b] :=
    splitSlash_slash2 ha hb
  simp only [HaproxyQueueStats.parse, hsplit]
  rw [if_neg (by simp)]
  simp only [idxParseU64, List.get?, rustU64_digits ha.1 ha.2 b1,
    rustU64_digits hb.1 hb.2 b2, RustRes.bind]

/-! ## Pointwise evaluation of `addCap` on the projections the
decomposition needs (all definitional) -/

theorem addCap_none_queues (l : List Char) (c : Caps) :
    (addCap none l c).queues_stats = c.queues_stats := rfl

theorem addCap_month_queues (l : List Char) (c : Caps) :
    (addCap (some .month) l c).queues_stats = c.queues_stats := rfl

theorem addCap_day_queues (l : List Char) (c : Caps) :
    (addCap (some .day) l c).queues_stats = c.queues_stats := rfl

theorem addCap_time_queues (l : List Char) (c : Caps) :
    (addCap (some .time) l c).queues_stats = c.queues_stats := rfl

theorem addCap_host_queues (l : List Char) (c : Caps) :
    (addCap (some .host) l c).queues_stats = c.queues_stats := rfl

theorem addCap_process_id_queues (l : List Char) (c : Caps) :
    (addCap (some .process_id) l c).queues_stats = c.queues_stats := rfl

theorem addCap_source_ip_port_queues (l : List Char) (c : Caps) :
    (addCap (some .source_ip_port) l c).queues_stats = c.queues_stats := rfl

theorem addCap_time_stamp_accepted_queues (l : List Char) (c : Caps) :
    (addCap (some .time_stamp_accepted) l c).queues_stats = c.queues_stats := rfl

theorem addCap_frontend_name_queues (l : List Char) (c : Caps) :
    (addCap (some .frontend_name) l c).queues_stats = c.queues_stats := rfl

theorem addCap_backend_name_queues (l : List Char) (c : Caps) :
    (addCap (some .backend_name) l c).queues_stats = c.queues_stats := rfl

theorem addCap_server_name_queues (l : List Char) (c : Caps) :
    (addCap (some .server_name) l c).queues_stats = c.queues_stats := rfl

theorem addCap_queues_queues (l : List Char) (c : Caps) :
    (addCap (some .queues_stats) l c).queues_stats = l ++ c.queues_stats := rfl

theorem addCap_response_code_queues (l : List Char) (c : Caps) :
    (addCap (some .response_code) l c).queues_stats = c.queues_stats := rfl

theorem addCap_bytes_queues (l : List Char) (c : Caps) :
    (addCap (some .bytes_read) l c).queues_stats = c.queues_stats := rfl

theorem addCap_term_queues (l : List Char) (c : Caps) :
    (addCap (some .termination_state) l c).queues_stats = c.queues_stats := rfl

theorem addCap_conn_queues (l : List Char) (c : Caps) :
    (addCap (some .conn_counts) l c).queues_stats = c.queues_stats := rfl

theorem addCap_queue_queues (l : List Char) (c : Caps) :
    (addCap (some .queue) l c).queues_stats = c.queues_stats := rfl

theorem addCap_request_queues (l : List Char) (c : Caps) :
    (addCap (some .request) l c).queues_stats = c.queues_stats := rfl

theorem addCap_none_conn (l : List Char) (c : Caps) :
    (addCap none l c).conn_counts = c.conn_counts := rfl

theorem addCap_month_conn (l : List Char) (c : Caps) :
    (addCap (some .month) l c).conn_counts = c.conn_counts := rfl

theorem addCap_day_conn (l : List Char) (c : Caps) :
    (addCap (some .day) l c).conn_counts = c.conn_counts := rfl

theorem addCap_time_conn (l : List Char) (c : Caps) :
    (addCap (some .time) l c).conn_counts = c.conn_counts := rfl

theorem addCap_host_conn (l : List Char) (c : Caps) :
    (addCap (some .host) l c).conn_counts = c.conn_counts := rfl

theorem addCap_process_id_conn (l : List Char) (c : Caps) :
    (addCap (some .process_id) l c).conn_counts = c.conn_counts := rfl

theorem addCap_source_ip_port_conn (l : List Char) (c : Caps) :
    (addCap (some .source_ip_port) l c).conn_counts = c.conn_counts := rfl

theorem addCap_time_stamp_accepted_conn (l : List Char) (c : Caps) :
    (addCap (some .time_stamp_accepted) l c).conn_counts = c.conn_counts := rfl

theorem addCap_frontend_name_conn (l : List Char) (c : Caps) :
    (addCap (some .frontend_name) l c).conn_counts = c.conn_counts := rfl

theorem addCap_backend_name_conn (l : List Char) (c : Caps) :
    (addCap (some .backend_name) l c).conn_counts = c.conn_counts := rfl

theorem addCap_server_name_conn (l : List Char) (c : Caps) :
    (addCap (some .server_name) l c).conn_counts = c.conn_counts := rfl

theorem addCap_queues_conn (l : List Char) (c : Caps) :
    (addCap (some .queues_stats) l c).conn_counts = c.conn_counts := rfl

theorem addCap_response_code_conn (l : List Char) (c : Caps) :
    (addCap (some .response_code) l c).conn_counts = c.conn_counts := rfl

theorem addCap_bytes_conn (l : List Char) (c : Caps) :
    (addCap (some .bytes_read) l c).conn_counts = c.conn_counts := rfl

theorem addCap_term_conn (l : List Char) (c : Caps) :
    (addCap (some .termination_state) l c).conn_counts = c.conn_counts := rfl

theorem addCap_conn_conn (l : List Char) (c : Caps) :
    (addCap (some .conn_counts) l c).conn_counts = l ++ c.conn_counts := rfl

theorem addCap_queue_conn (l : List Char) (c : Caps) :
    (addCap (some .queue) l c).conn_counts = c.conn_counts := rfl

theorem addCap_request_conn (l : List Char) (c : Caps) :
    (addCap (some .request) l c).conn_counts = c.conn_counts := rfl

theorem addCap_none_queue (l : List Char) (c : Caps) :
    (addCap none l c).queue = c.queue := rfl

theorem addCap_month_queue (l : List Char) (c : Caps) :
    (addCap (some .month) l c).queue = c.queue := rfl

theorem addCap_day_queue (l : List Char) (c : Caps) :
    (addCap (some .day) l c).queue = c.queue := rfl

theorem addCap_time_queue (l : List Char) (c : Caps) :
    (addCap (some .time) l c).queue = c.queue := rfl

theorem addCap_host_queue (l : List Char) (c : Caps) :
    (addCap (some .host) l c).queue = c.queue := rfl

theorem addCap_process_id_queue (l : List Char) (c : Caps) :
    (addCap (some .process_id) l c).queue = c.queue := rfl

theorem addCap_source_ip_port_queue (l : List Char) (c : Caps) :
    (addCap (some .source_ip_port) l c).queue = c.queue := rfl

theorem addCap_time_stamp_accepted_queue (l : List Char) (c : Caps) :
    (addCap (some .time_stamp_accepted) l c).queue = c.queue := rfl

theorem addCap_frontend_name_queue (l : List Char) (c : Caps) :
    (addCap (some .frontend_name) l c).queue = c.queue := rfl

theorem addCap_backend_name_queue (l : List Char) (c : Caps) :
    (addCap (some .backend_name) l c).queue = c.queue := rfl

theorem addCap_server_name_queue (l : List Char) (c : Caps) :
    (addCap (some .server_name) l c).queue = c.queue := rfl

theorem addCap_queues_queue (l : List Char) (c : Caps) :
    (addCap (some .queues_stats) l c).queue = c.queue := rfl

theorem addCap_response_code_queue (l : List Char) (c : Caps) :
    (addCap (some .response_code) l c).queue = c.queue := rfl

theorem addCap_bytes_queue (l : List Char) (c : Caps) :
    (addCap (some .bytes_read) l c).queue = c.queue := rfl

theorem addCap_term_queue (l : List Char) (c : Caps) :
    (addCap (some .termination_state) l c).queue = c.queue := rfl

theorem addCap_conn_queue (l : List Char) (c : Caps) :
    (addCap (some .conn_counts) l c).queue = c.queue := rfl

theorem addCap_queue_queue (l : List Char) (c : Caps) :
    (addCap (some .queue) l c).queue = l ++ c.queue := rfl

theorem addCap_request_queue (l : List Char) (c : Caps) :
    (addCap (some .request) l c).queue = c.queue := rfl

theorem addCap_none_term (l : List Char) (c : Caps) :
    (addCap none l c).termination_state = c.termination_state := rfl

theorem addCap_month_term (l : List Char) (c : Caps) :
    (addCap (some .month) l c).termination_state = c.termination_state := rfl

theorem addCap_day_term (l : List Char) (c : Caps) :
    (addCap (some .day) l c).termination_state = c.termination_state := rfl

theorem addCap_time_term (l : List Char) (c : Caps) :
    (addCap (some .time) l c).termination_state = c.termination_state := rfl

theorem addCap_host_term (l : List Char) (c : Caps) :
    (addCap (some .host) l c).termination_state = c.termination_state := rfl

theorem addCap_process_id_term (l : List Char) (c : Caps) :
    (addCap (some .process_id) l c).termination_state = c.termination_state := rfl

theorem addCap_source_ip_port_term (l : List Char) (c : Caps) :
    (addCap (some .source_ip_port) l c).termination_state = c.termination_state := rfl

theorem addCap_time_stamp_accepted_term (l : List Char) (c : Caps) :
    (addCap (some .time_stamp_accepted) l c).termination_state = c.termination_state := rfl

theorem addCap_frontend_name_term (l : List Char) (c : Caps) :
    (addCap (some .frontend_name) l c).termination_state = c.termination_state := rfl

theorem addCap_backend_name_term (l : List Char) (c : Caps) :
    (addCap (some .backend_name) l c).termination_state = c.termination_state := rfl

theorem addCap_server_name_term (l : List Char) (c : Caps) :
    (addCap (some .server_name) l c).termination_state = c.termination_state := rfl

theorem addCap_queues_term (l : List Char) (c : Caps) :
    (addCap (some .queues_stats) l c).termination_state = c.termination_state := rfl

theorem addCap_response_code_term (l : List Char) (c : Caps) :
    (addCap (some .response_code) l c).termination_state = c.termination_state := rfl

theorem addCap_bytes_term (l : List Char) (c : Caps) :
    (addCap (some .bytes_read) l c).termination_state = c.termination_state := rfl

theorem addCap_term_term (l : List Char) (c : Caps) :
    (addCap (some .termination_state) l c).termination_state = l ++ c.termination_state := rfl

theorem addCap_conn_term (l : List Char) (c : Caps) :
    (addCap (some .conn_counts) l c).termination_state = c.termination_state := rfl

theorem addCap_queue_term (l : List Char) (c : Caps) :
    (addCap (some .queue) l c).termination_state = c.termination_state := rfl

theorem addCap_request_term (l : List Char) (c : Caps) :
    (addCap (some .request) l c).termination_state = c.termination_state := rfl

theorem addCap_none_bytes (l : List Char) (c : Caps) :
    (addCap none l c).bytes_read = c.bytes_read := rfl

theorem addCap_month_bytes (l : List Char) (c : Caps) :
    (addCap (some .month) l c).bytes_read = c.bytes_read := rfl

theorem addCap_day_bytes (l : List Char) (c : Caps) :
    (addCap (some .day) l c).bytes_read = c.bytes_read := rfl

theorem addCap_time_bytes (l : List Char) (c : Caps) :
    (addCap (some .time) l c).bytes_read = c.bytes_read := rfl

theorem addCap_host_bytes (l : List Char) (c : Caps) :
    (addCap (some .host) l c).bytes_read = c.bytes_read := rfl

theorem addCap_process_id_bytes (l : List Char) (c : Caps) :
    (addCap (some .process_id) l c).bytes_read = c.bytes_read := rfl

theorem addCap_source_ip_port_bytes (l : List Char) (c : Caps) :
    (addCap (some .source_ip_port) l c).bytes_read = c.bytes_read := rfl

theorem addCap_time_stamp_accepted_bytes (l : List Char) (c : Caps) :
    (addCap (some .time_stamp_accepted) l c).bytes_read = c.bytes_read := rfl

theorem addCap_frontend_name_bytes (l : List Char) (c : Caps) :
    (addCap (some .frontend_name) l c).bytes_read = c.bytes_read := rfl

theorem addCap_backend_name_bytes (l : List Char) (c : Caps) :
    (addCap (some .backend_name) l c).bytes_read = c.bytes_read := rfl

theorem addCap_server_name_bytes (l : List Char) (c : Caps) :
    (addCap (some .server_name) l c).bytes_read = c.bytes_read := rfl

theorem addCap_queues_bytes (l : List Char) (c : Caps) :
    (addCap (some .queues_stats) l c).bytes_read = c.bytes_read := rfl

theorem addCap_response_code_bytes (l : List Char) (c : Caps) :
    (addCap (some .response_code) l c).bytes_read = c.bytes_read := rfl

theorem addCap_bytes_bytes (l : List Char) (c : Caps) :
    (addCap (some .bytes_read) l c).bytes_read = l ++ c.bytes_read := rfl

theorem addCap_term_bytes (l : List Char) (c : Caps) :
    (addCap (some .termination_state) l c).bytes_read = c.bytes_read := rfl

theorem addCap_conn_bytes (l : List Char) (c : Caps) :
    (addCap (some .conn_counts) l c).bytes_read = c.bytes_read := rfl

theorem addCap_queue_bytes (l : List Char) (c : Caps) :
    (addCap (some .queue) l c).bytes_read = c.bytes_read := rfl

theorem addCap_request_bytes (l : List Char) (c : Caps) :
    (addCap (some .request) l c).bytes_read = c.bytes_read := rfl

theorem initCaps_queues : initCaps.queues_stats = [] := rfl

theorem initCaps_conn : initCaps.conn_counts = [] := rfl

theorem initCaps_queue : initCaps.queue = [] := rfl

theorem initCaps_term : initCaps.termination_state = [] := rfl

theorem initCaps_bytes : initCaps.bytes_read = [] := rfl

/-! ## Decomposition of an accepted line -/

theorem SeqMatch.cons_inv {g : Option GName} {t : RTok} {rest : List GTok}
    {s : List Char} {caps : Caps} (h : SeqMatch ((g, t) :: rest) s caps) :
    ∃ l s' caps', TokMatches t l ∧ SeqMatch rest s' caps' ∧ s = l ++ s' ∧
      caps = addCap g l caps' := by
  cases h with
  | cons h1 h2 => exact ⟨_, _, _, h1, h2, rfl, rfl⟩

theorem SeqMatch.nil_inv {s : List Char} {caps : Caps}
    (h : SeqMatch [] s caps) : s = [] ∧ caps = initCaps := by
  cases h
  exact ⟨rfl, rfl⟩

theorem digitSeg_of_tok {l : List Char}
    (h : TokMatches (.rep isDigitChar 1 none) l) : DigitSeg l := by
  simp only [TokMatches] at h
  obtain ⟨hall, h1, -⟩ := h
  refine ⟨?_, hall⟩
  intro hnil
  subst hnil
  simp at h1

theorem wsOne_of_tok {l : List Char}
    (h : TokMatches (.rep isWsChar 1 (some 1)) l) :
    ∃ u, l = [u] ∧ isWsChar u = true := by
  simp only [TokMatches] at h
  obtain ⟨hall, h1, h2⟩ := h
  have h4 := h2 1 rfl
  have hlen : l.length = 1 := by omega
  obtain ⟨u, rfl⟩ := List.length_eq_one.mp hlen
  exact ⟨u, rfl, hall u (by simp)⟩

theorem len4_of_tok {l : List Char}
    (h : TokMatches (.rep isWordDashChar 4 (some 4)) l) : l.length = 4 := by
  simp only [TokMatches] at h
  obtain ⟨-, h1, h2⟩ := h
  have h4 := h2 4 rfl
  omega

/-- Pointwise concatenation of two capture sets: the captures of a line
matched by a split token list are the per-group concatenations of the two
halves' captures. -/
def capsMerge (c1 c2 : Caps) : Caps :=
  ⟨c1.month ++ c2.month, c1.day ++ c2.day, c1.time ++ c2.time,
   c1.host ++ c2.host, c1.process_id ++ c2.process_id,
   c1.source_ip_port ++ c2.source_ip_port,
   c1.time_stamp_accepted ++ c2.time_stamp_accepted,
   c1.frontend_name ++ c2.frontend_name, c1.backend_name ++ c2.backend_name,
   c1.server_name ++ c2.server_name, c1.queues_stats ++ c2.queues_stats,
   c1.response_code ++ c2.response_code, c1.bytes_read ++ c2.bytes_read,
   c1.termination_state ++ c2.termination_state,
   c1.conn_counts ++ c2.conn_counts, c1.queue ++ c2.queue,
   c1.request ++ c2.request⟩

theorem capsMerge_queues (c1 c2 : Caps) :
    (capsMerge c1 c2).queues_stats = c1.queues_stats ++ c2.queues_stats := rfl

theorem capsMerge_conn (c1 c2 : Caps) :
    (capsMerge c1 c2).conn_counts = c1.conn_counts ++ c2.conn_counts := rfl

theorem capsMerge_queue (c1 c2 : Caps) :
    (capsMerge c1 c2).queue = c1.queue ++ c2.queue := rfl

theorem capsMerge_term (c1 c2 : Caps) :
    (capsMerge c1 c2).termination_state =
      c1.termination_state ++ c2.termination_state := rfl

theorem capsMerge_bytes (c1 c2 : Caps) :
    (capsMerge c1 c2).bytes_read = c1.bytes_read ++ c2.bytes_read := rfl

theorem addCap_capsMerge (g : Option GName) (l : List Char) (ca cb : Caps) :
    addCap g l (capsMerge ca cb) = capsMerge (addCap g l ca) cb := by
  cases g with
  | none => rfl
  | some gn => cases gn <;> simp [addCap, capsMerge, List.append_assoc]

theorem seqMatch_append_inv {ta tb : List GTok} {s : List Char} {caps : Caps}
    (h : SeqMatch (ta ++ tb) s caps) :
    ∃ sa sb ca cb, SeqMatch ta sa ca ∧ SeqMatch tb sb cb ∧
      s = sa ++ sb ∧ caps = capsMerge ca cb := by
  induction ta generalizing s caps with
  | nil => exact ⟨[], s, initCaps, caps, SeqMatch.nil, h, rfl, rfl⟩
  | cons gt ta' ih =>
    obtain ⟨g, t⟩ := gt
    obtain ⟨l, s', caps', htok, hrest, rfl, rfl⟩ := SeqMatch.cons_inv h
    obtain ⟨sa, sb, ca, cb, hma, hmb, rfl, rfl⟩ := ih hrest
    exact ⟨l ++ sa, sb, addCap g l ca, cb, SeqMatch.cons htok hma, hmb,
      (List.append_assoc l sa sb).symm, addCap_capsMerge g l ca cb⟩

theorem seqMatch_untagged_queues {ta : List GTok} {s : List Char}
    {caps : Caps} (h : SeqMatch ta s caps)
    (hta : ∀ p ∈ ta, p.1 ≠ some GName.queues_stats) : caps.queues_stats = [] := by
  revert hta
  induction h with
  | nil => intro _; rfl
  | @cons g t l rest s' caps' htok hrest ih =>
    intro hta
    have hg : g ≠ some GName.queues_stats := hta (g, t) (by simp)
    have hr := ih (fun p hp => hta p (List.mem_cons_of_mem _ hp))
    cases g with
    | none => exact hr
    | some gn => cases gn <;> first | exact absurd rfl hg | exact hr

theorem seqMatch_untagged_conn {ta : List GTok} {s : List Char}
    {caps : Caps} (h : SeqMatch ta s caps)
    (hta : ∀ p ∈ ta, p.1 ≠ some GName.conn_counts) : caps.conn_counts = [] := by
  revert hta
  induction h with
  | nil => intro _; rfl
  | @cons g t l rest s' caps' htok hrest ih =>
    intro hta
    have hg : g ≠ some GName.conn_counts := hta (g, t) (by simp)
    have hr := ih (fun p hp => hta p (List.mem_cons_of_mem _ hp))
    cases g with
    | none => exact hr
    | some gn => cases gn <;> first | exact absurd rfl hg | exact hr

theorem seqMatch_untagged_queue {ta : List GTok} {s : List Char}
    {caps : Caps} (h : SeqMatch ta s caps)
    (hta : ∀ p ∈ ta, p.1 ≠ some GName.queue) : caps.queue = [] := by
  revert hta
  induction h with
  | nil => intro _; rfl
  | @cons g t l rest s' caps' htok hrest ih =>
    intro hta
    have hg : g ≠ some GName.queue := hta (g, t) (by simp)
    have hr := ih (fun p hp => hta p (List.mem_cons_of_mem _ hp))
    cases g with
    | none => exact hr
    | some gn => cases gn <;> first | exact absurd rfl hg | exact hr

theorem seqMatch_untagged_term {ta : List GTok} {s : List Char}
    {caps : Caps} (h : SeqMatch ta s caps)
    (hta : ∀ p ∈ ta, p.1 ≠ some GName.termination_state) : caps.termination_state = [] := by
  revert hta
  induction h with
  | nil => intro _; rfl
  | @cons g t l rest s' caps' htok hrest ih =>
    intro hta
    have hg : g ≠ some GName.termination_state := hta (g, t) (by simp)
    have hr := ih (fun p hp => hta p (List.mem_cons_of_mem _ hp))
    cases g with
    | none => exact hr
    | some gn => cases gn <;> first | exact absurd rfl hg | exact hr

theorem seqMatch_untagged_bytes {ta : List GTok} {s : List Char}
    {caps : Caps} (h : SeqMatch ta s caps)
    (hta : ∀ p ∈ ta, p.1 ≠ some GName.bytes_read) : caps.bytes_read = [] := by
  revert hta
  induction h with
  | nil => intro _; rfl
  | @cons g t l rest s' caps' htok hrest ih =>
    intro hta
    have hg : g ≠ some GName.bytes_read := hta (g, t) (by simp)
    have hr := ih (fun p hp => hta p (List.mem_cons_of_mem _ hp))
    cases g with
    | none => exact hr
    | some gn => cases gn <;> first | exact absurd rfl hg | exact hr

/-- Inversion for the first block: none of the five fields used by the
decoders is captured before the `queues_stats` group. -/
theorem reB1_inv {s : List Char} {c : Caps} (h : SeqMatch reB1 s c) :
    c.queues_stats = [] ∧ c.conn_counts = [] ∧ c.queue = [] ∧
      c.termination_state = [] ∧ c.bytes_read = [] :=
  ⟨seqMatch_untagged_queues h (by decide), seqMatch_untagged_conn h (by decide),
   seqMatch_untagged_queue h (by decide), seqMatch_untagged_term h (by decide),
   seqMatch_untagged_bytes h (by decide)⟩

/-- Inversion for the `queues_stats` block: the capture is the whole
matched chunk and consists of five digit segments joined by `/`. -/
theorem reB2_inv {s : List Char} {c : Caps} (h : SeqMatch reB2 s c) :
    (Slash5 c.queues_stats ∧ s = c.queues_stats) ∧
      c.conn_counts = [] ∧ c.queue = [] ∧ c.termination_state = [] ∧
      c.bytes_read = [] := by
  obtain ⟨q1, s20, c20, tq1, h2a, rfl, rfl⟩ := SeqMatch.cons_inv h
  obtain ⟨sl21, s21, c21, tl21, h2b, rfl, rfl⟩ := SeqMatch.cons_inv h2a
  obtain ⟨q2, s22, c22, tq2, h2c, rfl, rfl⟩ := SeqMatch.cons_inv h2b
  obtain ⟨sl22, s23, c23, tl22, h2d, rfl, rfl⟩ := SeqMatch.cons_inv h2c
  obtain ⟨q3, s24, c24, tq3, h2e, rfl, rfl⟩ := SeqMatch.cons_inv h2d
  obtain ⟨sl23, s25, c25, tl23, h2f, rfl, rfl⟩ := SeqMatch.cons_inv h2e
  obtain ⟨q4, s26, c26, tq4, h2g, rfl, rfl⟩ := SeqMatch.cons_inv h2f
  obtain ⟨sl24, s27, c27, tl24, h2h, rfl, rfl⟩ := SeqMatch.cons_inv h2g
  obtain ⟨q5, s28, c28, tq5, h2i, rfl, rfl⟩ := SeqMatch.cons_inv h2h
  obtain ⟨rfl, rfl⟩ := SeqMatch.nil_inv h2i
  have esl21 : sl21 = ['/'] := tl21
  subst esl21
  have esl22 : sl22 = ['/'] := tl22
  subst esl22
  have esl23 : sl23 = ['/'] := tl23
  subst esl23
  have esl24 : sl24 = ['/'] := tl24
  subst esl24
  have dq1 : DigitSeg q1 := digitSeg_of_tok tq1
  have dq2 : DigitSeg q2 := digitSeg_of_tok tq2
  have dq3 : DigitSeg q3 := digitSeg_of_tok tq3
  have dq4 : DigitSeg q4 := digitSeg_of_tok tq4
  have dq5 : DigitSeg q5 := digitSeg_of_tok tq5
  simp only [addCap_queues_queues, addCap_queues_conn, addCap_queues_queue,
    addCap_queues_term, addCap_queues_bytes, initCaps_queues, initCaps_conn,
    initCaps_queue, initCaps_term, initCaps_bytes, List.append_nil]
  refine ⟨⟨⟨q1, q2, q3, q4, q5, dq1, dq2, dq3, dq4, dq5, ?_⟩, ?_⟩,
    (by trivial), (by trivial), (by trivial), (by trivial)⟩
  · simp [List.append_assoc]
  · simp [List.append_assoc]

/-- Inversion for the middle block: the chunk is some prefix followed by
the `bytes_read` digits, the two dash placeholders each delimited by one
whitespace character, and the 4-character termination state followed by
one whitespace character. -/
theorem reB3_inv {s : List Char} {c : Caps} (h : SeqMatch reB3 s c) :
    (∃ P u1 u2 u3 u4,
        isWsChar u1 = true ∧ isWsChar u2 = true ∧ isWsChar u3 = true ∧
        isWsChar u4 = true ∧
        s = P ++ (c.bytes_read ++ (u1 :: '-' :: u2 :: '-' :: u3 ::
          (c.termination_state ++ [u4])))) ∧
      c.termination_state.length = 4 ∧
      c.queues_stats = [] ∧ c.conn_counts = [] ∧ c.queue = [] := by
  obtain ⟨w31, s30, c30, tw31, h3a, rfl, rfl⟩ := SeqMatch.cons_inv h
  obtain ⟨rc, s31, c31, trc, h3b, rfl, rfl⟩ := SeqMatch.cons_inv h3a
  obtain ⟨w32, s32, c32, tw32, h3c, rfl, rfl⟩ := SeqMatch.cons_inv h3b
  obtain ⟨br, s33, c33, tbr, h3d, rfl, rfl⟩ := SeqMatch.cons_inv h3c
  obtain ⟨e31, s34, c34, te31, h3e, rfl, rfl⟩ := SeqMatch.cons_inv h3d
  obtain ⟨d31, s35, c35, td31, h3f, rfl, rfl⟩ := SeqMatch.cons_inv h3e
  obtain ⟨e32, s36, c36, te32, h3g, rfl, rfl⟩ := SeqMatch.cons_inv h3f
  obtain ⟨d32, s37, c37, td32, h3h, rfl, rfl⟩ := SeqMatch.cons_inv h3g
  obtain ⟨e33, s38, c38, te33, h3i, rfl, rfl⟩ := SeqMatch.cons_inv h3h
  obtain ⟨ts, s39, c39, tts, h3j, rfl, rfl⟩ := SeqMatch.cons_inv h3i
  obtain ⟨e34, s310, c310, te34, h3k, rfl, rfl⟩ := SeqMatch.cons_inv h3j
  obtain ⟨rfl, rfl⟩ := SeqMatch.nil_inv h3k
  have ed31 : d31 = ['-'] := td31
  subst ed31
  have ed32 : d32 = ['-'] := td32
  subst ed32
  obtain ⟨u1, rfl, hu1⟩ := wsOne_of_tok te31
  obtain ⟨u2, rfl, hu2⟩ := wsOne_of_tok te32
  obtain ⟨u3, rfl, hu3⟩ := wsOne_of_tok te33
  obtain ⟨u4, rfl, hu4⟩ := wsOne_of_tok te34
  have hlen4 : ts.length = 4 := len4_of_tok tts
  simp only [addCap_none_queues, addCap_none_conn, addCap_none_queue,
    addCap_none_term, addCap_none_bytes, addCap_response_code_queues,
    addCap_response_code_conn, addCap_response_code_queue,
    addCap_response_code_term, addCap_response_code_bytes,
    addCap_bytes_queues, addCap_bytes_conn, addCap_bytes_queue,
    addCap_bytes_term, addCap_bytes_bytes, addCap_term_queues,
    addCap_term_conn, addCap_term_queue, addCap_term_term,
    addCap_term_bytes, initCaps_queues, initCaps_conn, initCaps_queue,
    initCaps_term, initCaps_bytes, List.append_nil]
  refine ⟨⟨w31 ++ (rc ++ w32), u1, u2, u3, u4, hu1, hu2, hu3, hu4, ?_⟩,
    ?_, (by trivial), (by trivial), (by trivial)⟩
  · simp [List.append_assoc]
  · simpa using hlen4

/-- Inversion for the `conn_counts` block: the capture is the whole
matched chunk and consists of five digit segments joined by `/`. -/
theorem reB4_inv {s : List Char} {c : Caps} (h : SeqMatch reB4 s c) :
    (Slash5 c.conn_counts ∧ s = c.conn_counts) ∧
      c.queues_stats = [] ∧ c.queue = [] ∧ c.termination_state = [] ∧
      c.bytes_read = [] := by
  obtain ⟨k1, s40, c40, tk1, h4a, rfl, rfl⟩ := SeqMatch.cons_inv h
  obtain ⟨sl41, s41, c41, tl41, h4b, rfl, rfl⟩ := SeqMatch.cons_inv h4a
  obtain ⟨k2, s42, c42, tk2, h4c, rfl, rfl⟩ := SeqMatch.cons_inv h4b
  obtain ⟨sl42, s43, c43, tl42, h4d, rfl, rfl⟩ := SeqMatch.cons_inv h4c
  obtain ⟨k3, s44, c44, tk3, h4e, rfl, rfl⟩ := SeqMatch.cons_inv h4d
  obtain ⟨sl43, s45, c45, tl43, h4f, rfl, rfl⟩ := SeqMatch.cons_inv h4e
  obtain ⟨k4, s46, c46, tk4, h4g, rfl, rfl⟩ := SeqMatch.cons_inv h4f
  obtain ⟨sl44, s47, c47, tl44, h4h, rfl, rfl⟩ := SeqMatch.cons_inv h4g
  obtain ⟨k5, s48, c48, tk5, h4i, rfl, rfl⟩ := SeqMatch.cons_inv h4h
  obtain ⟨rfl, rfl⟩ := SeqMatch.nil_inv h4i
  have esl41 : sl41 = ['/'] := tl41
  subst esl41
  have esl42 : sl42 = ['/'] := tl42
  subst esl42
  have esl43 : sl43 = ['/'] := tl43
  subst esl43
  have esl44 : sl44 = ['/'] := tl44
  subst esl44
  have dk1 : DigitSeg k1 := digitSeg_of_tok tk1
  have dk2 : DigitSeg k2 := digitSeg_of_tok tk2
  have dk3 : DigitSeg k3 := digitSeg_of_tok tk3
  have dk4 : DigitSeg k4 := digitSeg_of_tok tk4
  have dk5 : DigitSeg k5 := digitSeg_of_tok tk5
  simp only [addCap_conn_queues, addCap_conn_conn, addCap_conn_queue,
    addCap_conn_term, addCap_conn_bytes, initCaps_queues, initCaps_conn,
    initCaps_queue, initCaps_term, initCaps_bytes, List.append_nil]
  refine ⟨⟨⟨k1, k2, k3, k4, k5, dk1, dk2, dk3, dk4, dk5, ?_⟩, ?_⟩,
    (by trivial), (by trivial), (by trivial), (by trivial)⟩
  · simp [List.append_assoc]
  · simp [List.append_assoc]

/-- Inversion for the last block: the `queue` capture is two digit
segments joined by `/`, and no other decoder field is captured there. -/
theorem reB5_inv {s : List Char} {c : Caps} (h : SeqMatch reB5 s c) :
    Slash2 c.queue ∧ c.queues_stats = [] ∧ c.conn_counts = [] ∧
      c.termination_state = [] ∧ c.bytes_read = [] := by
  obtain ⟨w51, s50, c50, tw51, h5a, rfl, rfl⟩ := SeqMatch.cons_inv h
  obtain ⟨m1, s51, c51, tm1, h5b, rfl, rfl⟩ := SeqMatch.cons_inv h5a
  obtain ⟨sl51, s52, c52, tl51, h5c, rfl, rfl⟩ := SeqMatch.cons_inv h5b
  obtain ⟨m2, s53, c53, tm2, h5d, rfl, rfl⟩ := SeqMatch.cons_inv h5c
  obtain ⟨w52, s54, c54, tw52, h5e, rfl, rfl⟩ := SeqMatch.cons_inv h5d
  obtain ⟨qt1, s55, c55, tqt1, h5f, rfl, rfl⟩ := SeqMatch.cons_inv h5e
  obtain ⟨rq, s56, c56, trq, h5g, rfl, rfl⟩ := SeqMatch.cons_inv h5f
  obtain ⟨qt2, s57, c57, tqt2, h5h, rfl, rfl⟩ := SeqMatch.cons_inv h5g
  obtain ⟨rfl, rfl⟩ := SeqMatch.nil_inv h5h
  have esl51 : sl51 = ['/'] := tl51
  subst esl51
  have dm1 : DigitSeg m1 := digitSeg_of_tok tm1
  have dm2 : DigitSeg m2 := digitSeg_of_tok tm2
  simp only [addCap_none_queues, addCap_none_conn, addCap_none_queue,
    addCap_none_term, addCap_none_bytes, addCap_queue_queues,
    addCap_queue_conn, addCap_queue_queue, addCap_queue_term,
    addCap_queue_bytes, addCap_request_queues, addCap_request_conn,
    addCap_request_queue, addCap_request_term, addCap_request_bytes,
    initCaps_queues, initCaps_conn, initCaps_queue, initCaps_term,
    initCaps_bytes, List.append_nil]
  refine ⟨⟨m1, m2, dm1, dm2, ?_⟩, (by trivial), (by trivial), (by trivial), (by trivial)⟩
  simp [List.append_assoc]

/-- Structure of any line accepted by the token grammar: the three
slash-joined numeric capture groups really are digit segments joined by
`/`, the termination-state group is exactly 4 characters, and the line
itself carries the two dash placeholders delimited by exactly one
whitespace character each. -/
theorem reDecomp {line : List Char} {caps : Caps}
    (h : matchSeq reToks line = some caps) :
    Slash5 caps.queues_stats ∧ Slash5 caps.conn_counts ∧
      Slash2 caps.queue ∧ caps.termination_state.length = 4 ∧
      ∃ A B u1 u2 u3 u4,
        isWsChar u1 = true ∧ isWsChar u2 = true ∧ isWsChar u3 = true ∧
        isWsChar u4 = true ∧
        line = A ++ (caps.bytes_read ++ (u1 :: '-' :: u2 :: '-' :: u3 ::
          (caps.termination_state ++ (u4 :: (caps.conn_counts ++ B))))) := by
  have hs := matchSeq_sound h
  obtain ⟨sa1, sr1, ca1, cr1, hm1, hsA, rfl, rfl⟩ :=
    @seqMatch_append_inv reB1 (reB2 ++ (reB3 ++ (reB4 ++ reB5))) _ _ hs
  obtain ⟨sa2, sr2, ca2, cr2, hm2, hsB, rfl, rfl⟩ :=
    @seqMatch_append_inv reB2 (reB3 ++ (reB4 ++ reB5)) _ _ hsA
  obtain ⟨sa3, sr3, ca3, cr3, hm3, hsC, rfl, rfl⟩ :=
    @seqMatch_append_inv reB3 (reB4 ++ reB5) _ _ hsB
  obtain ⟨sa4, sa5, ca4, ca5, hm4, hm5, rfl, rfl⟩ :=
    @seqMatch_append_inv reB4 reB5 _ _ hsC
  obtain ⟨z1q, z1c, z1u, z1t, z1b⟩ := reB1_inv hm1
  obtain ⟨⟨hq5, hseq2⟩, z2c, z2u, z2t, z2b⟩ := reB2_inv hm2
  obtain ⟨⟨P, u1, u2, u3, u4, hu1, hu2, hu3, hu4, hshape⟩, hlen4, z3q, z3c, z3u⟩ :=
    reB3_inv hm3
  obtain ⟨⟨hc5, hseq4⟩, z4q, z4u, z4t, z4b⟩ := reB4_inv hm4
  obtain ⟨hq2, z5q, z5c, z5t, z5b⟩ := reB5_inv hm5
  subst hseq2
  subst hseq4
  subst hshape
  simp only [capsMerge_queues, capsMerge_conn, capsMerge_queue,
    capsMerge_term, capsMerge_bytes, z1q, z1c, z1u, z1t, z1b, z2c, z2u,
    z2t, z2b, z3q, z3c, z3u, z4q, z4u, z4t, z4b, z5q, z5c, z5t, z5b,
    List.append_nil, List.nil_append]
  refine ⟨hq5, hc5, hq2, hlen4,
    sa1 ++ (ca2.queues_stats ++ P), sa5, u1, u2, u3, u4,
    hu1, hu2, hu3, hu4, ?_⟩
  simp [List.append_assoc]

/-! ## Inversion helpers for the decoders -/

theorem bind_ok_inv {α β : Type} {x : RustRes α} {f : α → RustRes β} {b : β}
    (h : x.bind f = .ok b) : ∃ a, x = .ok a ∧ f a = .ok b := by
  cases x with
  | panic => simp [RustRes.bind] at h
  | err m => simp [RustRes.bind] at h
  | ok a => exact ⟨a, rfl, h⟩

theorem timers_parse_raw {s : String} {t : HaproxyTimers}
    (h : HaproxyTimers.parse s = .ok t) : t.raw = s := by
  simp only [HaproxyTimers.parse] at h
  split at h
  · simp at h
  · obtain ⟨a, -, h⟩ := bind_ok_inv h
    obtain ⟨b, -, h⟩ := bind_ok_inv h
    obtain ⟨c, -, h⟩ := bind_ok_inv h
    obtain ⟨d, -, h⟩ := bind_ok_inv h
    obtain ⟨e, -, h⟩ := bind_ok_inv h
    injection h with h
    rw [← h]

theorem conn_parse_raw {s : String} {t : HaproxyConnectionCounts}
    (h : HaproxyConnectionCounts.parse s = .ok t) : t.raw = s := by
  simp only [HaproxyConnectionCounts.parse] at h
  split at h
  · simp at h
  · obtain ⟨a, -, h⟩ := bind_ok_inv h
    obtain ⟨b, -, h⟩ := bind_ok_inv h
    obtain ⟨c, -, h⟩ := bind_ok_inv h
    obtain ⟨d, -, h⟩ := bind_ok_inv h
    obtain ⟨e, -, h⟩ := bind_ok_inv h
    injection h with h
    rw [← h]

theorem ts_parse_ok_inv {s : String} {ts : HaproxyTerminationState}
    (h : HaproxyTerminationState.parse s = .ok ts) :
    ∃ c0 c1 c2 c3, s.toList.get? 0 = some c0 ∧ s.toList.get? 1 = some c1 ∧
      s.toList.get? 2 = some c2 ∧ s.toList.get? 3 = some c3 ∧
      ts = ⟨s, .reason c0, .state c1, .cookie c2, .operations c3⟩ := by
  unfold HaproxyTerminationState.parse at h
  cases h0 : s.toList.get? 0 <;> rw [h0] at h
  · simp at h
  cases h1 : s.toList.get? 1 <;> rw [h1] at h
  · simp at h
  cases h2 : s.toList.get? 2 <;> rw [h2] at h
  · simp at h
  cases h3 : s.toList.get? 3 <;> rw [h3] at h
  · simp at h
  injection h with h
  exact ⟨_, _, _, _, rfl, rfl, rfl, rfl, h.symm⟩

theorem log_parse_ok_inv {line : String} {e : HaproxyLogEntry}
    (h : HaproxyLogEntry.parse line = .ok e) :
    ∃ caps, reCaptures line = some caps ∧
      HaproxyTimers.parse (String.mk caps.queues_stats) = .ok e.timers ∧
      HaproxyTerminationState.parse (String.mk caps.termination_state) =
        .ok e.termination_state ∧
      HaproxyConnectionCounts.parse (String.mk caps.conn_counts) =
        .ok e.conn_counts ∧
      HaproxyQueueStats.parse (String.mk caps.queue) = .ok e.queue ∧
      e.response_code = String.mk caps.response_code := by
  unfold HaproxyLogEntry.parse at h
  cases hc : reCaptures line <;> rw [hc] at h
  · simp at h
  next caps =>
    obtain ⟨t, ht, h⟩ := bind_ok_inv h
    obtain ⟨ts, hts, h⟩ := bind_ok_inv h
    obtain ⟨cc, hcc, h⟩ := bind_ok_inv h
    obtain ⟨q, hq, h⟩ := bind_ok_inv h
    injection h with h
    subst h
    exact ⟨caps, rfl, ht, hts, hcc, hq, rfl⟩

/-! ## Absence of panics -/

theorem idxParseU64_ne_panic {parts : List (List Char)} {i : Nat}
    (h : i < parts.length) : idxParseU64 parts i ≠ .panic := by
  unfold idxParseU64
  cases hg : parts.get? i with
  | none =>
    rw [List.get?_eq_none] at hg
    omega
  | some seg => cases hr : rustU64 seg <;> simp [hr]

theorem bind_ne_panic {α β : Type} {x : RustRes α} {f : α → RustRes β}
    (hx : x ≠ .panic) (hf : ∀ a, f a ≠ .panic) : x.bind f ≠ .panic := by
  cases x with
  | panic => exact absurd rfl hx
  | err m => simp [RustRes.bind]
  | ok a => exact hf a

theorem timers_parse_ne_panic (s : String) :
    HaproxyTimers.parse s ≠ .panic := by
  simp only [HaproxyTimers.parse]
  split
  · simp
  · next hlen =>
    have h5 : (splitSlash s.toList).length = 5 := by omega
    refine bind_ne_panic (idxParseU64_ne_panic (by omega)) fun a =>
      bind_ne_panic (idxParseU64_ne_panic (by omega)) fun b =>
      bind_ne_panic (idxParseU64_ne_panic (by omega)) fun c =>
      bind_ne_panic (idxParseU64_ne_panic (by omega)) fun d =>
      bind_ne_panic (idxParseU64_ne_panic (by omega)) fun e => by simp

theorem conn_parse_ne_panic (s : String) :
    HaproxyConnectionCounts.parse s ≠ .panic := by
  simp only [HaproxyConnectionCounts.parse]
  split
  · simp
  · next hlen =>
    have h5 : (splitSlash s.toList).length = 5 := by omega
    refine bind_ne_panic (idxParseU64_ne_panic (by omega)) fun a =>
      bind_ne_panic (idxParseU64_ne_panic (by omega)) fun b =>
      bind_ne_panic (idxParseU64_ne_panic (by omega)) fun c =>
      bind_ne_panic (idxParseU64_ne_panic (by omega)) fun d =>
      bind_ne_panic (idxParseU64_ne_panic (by omega)) fun e => by simp

theorem queue_parse_ne_panic (s : String) :
    HaproxyQueueStats.parse s ≠ .panic := by
  simp only [HaproxyQueueStats.parse]
  split
  · simp
  · next hlen =>
    have h2 : (splitSlash s.toList).length = 2 := by omega
    refine bind_ne_panic (idxParseU64_ne_panic (by omega)) fun a =>
      bind_ne_panic (idxParseU64_ne_panic (by omega)) fun b => by simp

theorem ts_parse_ne_panic (s : String) :
    HaproxyTerminationState.parse s ≠ .panic := by
  unfold HaproxyTerminationState.parse
  cases s.toList.get? 0
  · simp
  cases s.toList.get? 1
  · simp
  cases s.toList.get? 2
  · simp
  cases s.toList.get? 3 <;> simp

theorem log_parse_ne_panic (s : String) :
    HaproxyLogEntry.parse s ≠ .panic := by
  unfold HaproxyLogEntry.parse
  cases reCaptures s with
  | none => simp
  | some caps =>
    refine bind_ne_panic (timers_parse_ne_panic _) fun t =>
      bind_ne_panic (ts_parse_ne_panic _) fun ts =>
      bind_ne_panic (conn_parse_ne_panic _) fun cc =>
      bind_ne_panic (queue_parse_ne_panic _) fun q => by simp

/-! ## Whitespace-run collapsing and other statement vocabulary -/

/-- Collapse every maximal whitespace run to a single space.  Two lines
that differ only in the lengths of their whitespace runs have equal
collapses. -/
def wsCollapse : List Char → List Char
  | [] => []
  | [c] => if isWsChar c then [' '] else [c]
  | c :: d :: s =>
    if isWsChar c then
      if isWsChar d then wsCollapse (d :: s)
      else ' ' :: wsCollapse (d :: s)
    else c :: wsCollapse (d :: s)

/-- Every segment of a `/`-joined group is in canonical decimal form:
no segment has a superfluous leading zero. -/
def NoLeadZeros (l : List Char) : Prop :=
  ∀ seg ∈ splitSlash l, seg.head? = some '0' → seg = ['0']

theorem length_eq_four {l : List Char} (h : l.length = 4) :
    ∃ c0 c1 c2 c3, l = [c0, c1, c2, c3] := by
  match l with
  | [c0, c1, c2, c3] => exact ⟨c0, c1, c2, c3, rfl⟩
  | [] | [_] | [_, _] | [_, _, _] => simp at h
  | _ :: _ :: _ :: _ :: _ :: _ => simp at h

@[simp]
theorem reason_shorthand (c : Char) :
    (HaproxyTerminationStateEntry.reason c).shorthand = c := rfl

@[simp]
theorem state_shorthand (c : Char) :
    (HaproxyTerminationStateEntry.state c).shorthand = c := rfl

@[simp]
theorem cookie_shorthand (c : Char) :
    (HaproxyTerminationStateEntry.cookie c).shorthand = c := rfl

@[simp]
theorem operations_shorthand (c : Char) :
    (HaproxyTerminationStateEntry.operations c).shorthand = c := rfl

/-! ## Concrete test vectors -/

/-- A short well-formed log line used as a concrete test vector. -/
def exLine : String :=
  "Jan 1 00:00:00 h p[1]: 1.2:3 [t] f b/s 1/2/3/4/5 200 6 - - ---- 7/8/9/1/2 3/4 \"GET / HTTP/1.1\""

/-- Line `exLine` with the `\s+` run after the month doubled. -/
def exLineSpaced : String :=
  "Jan  1 00:00:00 h p[1]: 1.2:3 [t] f b/s 1/2/3/4/5 200 6 - - ---- 7/8/9/1/2 3/4 \"GET / HTTP/1.1\""

/-- The record `exLine` decodes to. -/
def exEntry : HaproxyLogEntry :=
  ⟨"Jan", "1", "00:00:00", "h", "p[1]", "1.2:3", "t", "f", "b", "s",
    ⟨"1/2/3/4/5", 1, 2, 3, 4, 5⟩, "200", "6",
    ⟨"----",
      ⟨'-', "normal session completion, both the client and the server closed with nothing left in the buffers."⟩,
      ⟨'-', "normal session completion after end of data transfer."⟩,
      ⟨'-', "does not apply (no cookie set in configuration)."⟩,
      ⟨'-', "does not apply (no cookie set in configuration)."⟩⟩,
    ⟨"7/8/9/1/2", 7, 8, 9, 1, 2⟩, ⟨3, 4⟩, "GET / HTTP/1.1"⟩

/-- A record agreeing with `exEntry` on the response code and the four
termination shorthands but differing in several other fields. -/
def exEntryB : HaproxyLogEntry :=
  ⟨"Feb", "28", "11:22:33", "lb9", "haproxy[77]", "10.0.0.9:443", "stamp",
    "fe2", "be2", "srv2",
    ⟨"01/02/3/4/5", 1, 2, 3, 4, 5⟩, "200", "999",
    ⟨"----x",
      ⟨'-', "normal session completion, both the client and the server closed with nothing left in the buffers."⟩,
      ⟨'-', "normal session completion after end of data transfer."⟩,
      ⟨'-', "does not apply (no cookie set in configuration)."⟩,
      ⟨'-', "does not apply (no cookie set in configuration)."⟩⟩,
    ⟨"1/1/1/1/1", 1, 1, 1, 1, 1⟩, ⟨9, 9⟩, "POST /x HTTP/1.0"⟩

/-- The captures of `exLine`. -/
def exCaps : Caps :=
  ⟨"Jan".toList, "1".toList, "00:00:00".toList, "h".toList, "p[1]".toList,
   "1.2:3".toList, "t".toList, "f".toList, "b".toList, "s".toList,
   "1/2/3/4/5".toList, "200".toList, "6".toList, "----".toList,
   "7/8/9/1/2".toList, "3/4".toList, "GET / HTTP/1.1".toList⟩

/-! ## The claims -/

/-- C2: for every successfully parsed log entry, `is_error()` is true
exactly when the response code fails to parse as a `u16`, or parses to a
value of at least 400, or the termination state is an error; consequently
it is false when the response code is in `[200, 399]` and the termination
code is exactly `"----"`. -/
theorem c2_log_is_error_iff (line : String) (e : HaproxyLogEntry)
    (h : HaproxyLogEntry.parse line = .ok e) :
    (e.is_error = true ↔
      rustU16 e.response_code.toList = none ∨
        ∃ v, rustU16 e.response_code.toList = some v ∧
          (400 ≤ v ∨ e.termination_state.is_error = true)) ∧
    (∀ v, rustU16 e.response_code.toList = some v → 200 ≤ v → v ≤ 399 →
      e.termination_state.raw = "----" → e.is_error = false) := by
  constructor
  · unfold HaproxyLogEntry.is_error
    cases hr : rustU16 e.response_code.toList with
    | none => simp
    | some v =>
      simp only [Bool.or_eq_true, decide_eq_true_eq]
      constructor
      · rintro (h4 | hts)
        · exact Or.inr ⟨v, rfl, Or.inl h4⟩
        · exact Or.inr ⟨v, rfl, Or.inr hts⟩
      · rintro (hnone | ⟨v', hv', h4 | hts⟩)
        · exact absurd hnone (by simp)
        · injection hv' with hv'
          subst hv'
          exact Or.inl h4
        · exact Or.inr hts
  · intro v hv h200 h399 hraw
    obtain ⟨caps, -, -, hts, -, -, -⟩ := log_parse_ok_inv h
    obtain ⟨c0, c1, c2, c3, g0, g1, g2, g3, hts_eq⟩ := ts_parse_ok_inv hts
    rw [hts_eq] at hraw
    have hlist : (String.mk caps.termination_state).toList =
        "----".toList := congrArg String.toList hraw
    rw [hlist] at g0 g1 g2 g3
    have hc0 : c0 = '-' := by injection g0 with g0; exact g0.symm
    have hc1 : c1 = '-' := by injection g1 with g1; exact g1.symm
    have hc2 : c2 = '-' := by injection g2 with g2; exact g2.symm
    have hc3 : c3 = '-' := by injection g3 with g3; exact g3.symm
    subst hc0 hc1 hc2 hc3
    have h4 : decide (400 ≤ v) = false := by
      simp only [decide_eq_false_iff_not]
      omega
    have hform : e.is_error =
        (decide (400 ≤ v) || e.termination_state.is_error) := by
      unfold HaproxyLogEntry.is_error
      rw [hv]
    rw [hform, h4, hts_eq]
    rfl

/-- C2 witness: on the concrete line `exLine` (response code 200,
termination code `----`), `is_error` is false. -/
theorem c2_witness : exEntry.is_error = false :=
  (c2_log_is_error_iff exLine exEntry (by decide)).2 200 (by decide)
    (by decide) (by decide) rfl

/-- C3: a decoded termination state is a non-error exactly when its
4-character code is `"----"`. -/
theorem c3_ts_is_error_iff (c0 c1 c2 c3 : Char)
    (ts : HaproxyTerminationState)
    (h : HaproxyTerminationState.parse (String.mk [c0, c1, c2, c3]) = .ok ts) :
    ts.is_error = false ↔ String.mk [c0, c1, c2, c3] = "----" := by
  have h' : HaproxyTerminationState.parse (String.mk [c0, c1, c2, c3]) =
      .ok ⟨String.mk [c0, c1, c2, c3], .reason c0, .state c1, .cookie c2,
        .operations c3⟩ := rfl
  rw [h'] at h
  injection h with h
  subst h
  unfold HaproxyTerminationState.is_error
  simp only [reason_shorthand, state_shorthand, cookie_shorthand,
    operations_shorthand, Bool.not_eq_false', Bool.and_eq_true,
    decide_eq_true_eq]
  constructor
  · rintro ⟨⟨⟨rfl, rfl⟩, rfl⟩, rfl⟩
    rfl
  · intro hh
    have := congrArg String.data hh
    simp only [String.data] at this
    injection this with i0 this
    injection this with i1 this
    injection this with i2 this
    injection this with i3 this
    exact ⟨⟨⟨i0, i1⟩, i2⟩, i3⟩

/-- C3 witness: the normal-completion code `----` is not an error. -/
theorem c3_witness :
    (⟨String.mk ['-', '-', '-', '-'], .reason '-', .state '-', .cookie '-',
      .operations '-'⟩ : HaproxyTerminationState).is_error = false ↔
      String.mk ['-', '-', '-', '-'] = "----" :=
  c3_ts_is_error_iff '-' '-' '-' '-' _ (by decide)

/-- C4: decoding a 4-character termination code never fails, keeps the
raw characters and each position's shorthand verbatim, and routes the four
positions through the reason, session-state, cookie and operations tables
in that order; characters outside a table map to its "Unknown ..."
description. -/
theorem c4_ts_decode_total (c0 c1 c2 c3 : Char) :
    HaproxyTerminationState.parse (String.mk [c0, c1, c2, c3]) =
      .ok ⟨String.mk [c0, c1, c2, c3], .reason c0, .state c1, .cookie c2,
        .operations c3⟩ ∧
    (HaproxyTerminationStateEntry.reason c0).shorthand = c0 ∧
    (HaproxyTerminationStateEntry.state c1).shorthand = c1 ∧
    (HaproxyTerminationStateEntry.cookie c2).shorthand = c2 ∧
    (HaproxyTerminationStateEntry.operations c3).shorthand = c3 ∧
    (c0 ∉ ['C', 'S', 'P', 'L', 'R', 'I', 'D', 'U', 'K', 'c', 's', '-'] →
      (HaproxyTerminationStateEntry.reason c0).description =
        "Unknown termination state") ∧
    (c1 ∉ ['R', 'Q', 'C', 'H', 'D', 'L', 'T', '-'] →
      (HaproxyTerminationStateEntry.state c1).description =
        "Unknown session state") ∧
    (c2 ∉ ['N', 'I', 'D', 'V', 'E', 'O', 'U', '-'] →
      (HaproxyTerminationStateEntry.cookie c2).description =
        "Unknown cookie operation") ∧
    (c3 ∉ ['N', 'I', 'U', 'P', 'R', 'D', '-'] →
      (HaproxyTerminationStateEntry.operations c3).description =
        "Unknown cookie operation") := by
  refine ⟨rfl, rfl, rfl, rfl, rfl, ?_, ?_, ?_, ?_⟩
  · intro h
    simp only [HaproxyTerminationStateEntry.reason]
    split <;> simp_all
  · intro h
    simp only [HaproxyTerminationStateEntry.state]
    split <;> simp_all
  · intro h
    simp only [HaproxyTerminationStateEntry.cookie]
    split <;> simp_all
  · intro h
    simp only [HaproxyTerminationStateEntry.operations]
    split <;> simp_all

/-- C4 witness: decoding the (partly unknown) code `xQ-z`. -/
theorem c4_witness :
    HaproxyTerminationState.parse (String.mk ['x', 'Q', '-', 'z']) =
      .ok ⟨String.mk ['x', 'Q', '-', 'z'], .reason 'x', .state 'Q',
        .cookie '-', .operations 'z'⟩ :=
  (c4_ts_decode_total 'x' 'Q' '-' 'z').1

/-- C9: every decoder of the pipeline is total: whatever the input
string, it returns an `ok` or `err` value and never reaches a panicking
operation (all vector indexing is guarded by the arity check, character
and capture-group accesses go through handled `Option`s). -/
theorem c9_parse_total (s : String) :
    HaproxyTimers.parse s ≠ .panic ∧
      HaproxyTerminationState.parse s ≠ .panic ∧
      HaproxyConnectionCounts.parse s ≠ .panic ∧
      HaproxyQueueStats.parse s ≠ .panic ∧
      HaproxyLogEntry.parse s ≠ .panic :=
  ⟨timers_parse_ne_panic s, ts_parse_ne_panic s, conn_parse_ne_panic s,
    queue_parse_ne_panic s, log_parse_ne_panic s⟩

/-- C9 witness: no panic on a malformed concrete input. -/
theorem c9_witness : HaproxyLogEntry.parse "garbage" ≠ .panic :=
  (c9_parse_total "garbage").2.2.2.2

/-- C10: `is_error` reads only the response-code string and the four
termination shorthands: two entries agreeing there agree on `is_error`,
whatever their other fields hold. -/
theorem c10_is_error_noninterference (e1 e2 : HaproxyLogEntry)
    (hrc : e1.response_code = e2.response_code)
    (hr : e1.termination_state.termination_reason.shorthand =
      e2.termination_state.termination_reason.shorthand)
    (hs : e1.termination_state.session_state.shorthand =
      e2.termination_state.session_state.shorthand)
    (hc : e1.termination_state.persistence_cookie.shorthand =
      e2.termination_state.persistence_cookie.shorthand)
    (ho : e1.termination_state.persistence_operations.shorthand =
      e2.termination_state.persistence_operations.shorthand) :
    e1.is_error = e2.is_error := by
  unfold HaproxyLogEntry.is_error HaproxyTerminationState.is_error
  rw [hrc, hr, hs, hc, ho]

/-- C10 witness: two concrete records differing in raws, timers, counts
and pass-through fields but agreeing on response code and shorthands get
the same `is_error`. -/
theorem c10_witness : exEntry.is_error = exEntryB.is_error :=
  c10_is_error_noninterference exEntry exEntryB rfl rfl rfl rfl rfl

/-- C5 counterexample: a segment beginning with `+` does NOT fail —
Rust's `u64` parsing accepts one leading `+`, so all three decoders
accept inputs the claim says they must reject. -/
theorem c5_counterexample :
    HaproxyTimers.parse "+1/2/3/4/5" = .ok ⟨"+1/2/3/4/5", 1, 2, 3, 4, 5⟩ ∧
    HaproxyConnectionCounts.parse "+1/2/3/4/5" =
      .ok ⟨"+1/2/3/4/5", 1, 2, 3, 4, 5⟩ ∧
    HaproxyQueueStats.parse "+1/2" = .ok ⟨1, 2⟩ := by
  refine ⟨?_, ?_, ?_⟩ <;> decide

/-- C5 amended: the decoders succeed exactly when the split has the right
arity (5, 5, 2) and every segment is an optional leading `+` followed by
a nonempty digit run whose value fits in 64 bits (`"12a"`, empty
segments, a sign other than one `+`, or an overflowing value fail). -/
theorem c5_amended (s : String) :
    ((∃ t, HaproxyTimers.parse s = .ok t) ↔
      ((splitSlash s.toList).length = 5 ∧
        ∀ seg ∈ splitSlash s.toList, RustUIntSeg seg)) ∧
    ((∃ c, HaproxyConnectionCounts.parse s = .ok c) ↔
      ((splitSlash s.toList).length = 5 ∧
        ∀ seg ∈ splitSlash s.toList, RustUIntSeg seg)) ∧
    ((∃ q, HaproxyQueueStats.parse s = .ok q) ↔
      ((splitSlash s.toList).length = 2 ∧
        ∀ seg ∈ splitSlash s.toList, RustUIntSeg seg)) := by
  refine ⟨(timers_parse_ok_iff s).trans ?_, (conn_parse_ok_iff s).trans ?_,
    (queue_parse_ok_iff s).trans ?_⟩ <;>
  · constructor
    · rintro ⟨hl, hsegs⟩
      exact ⟨hl, fun seg hm => rustU64_some_iff.mp (hsegs seg hm)⟩
    · rintro ⟨hl, hsegs⟩
      exact ⟨hl, fun seg hm => rustU64_some_iff.mpr (hsegs seg hm)⟩

/-- C5 witness: the characterization applied to the concrete string
`"1/2/3/4"` (wrong arity: all three decoders reject it). -/
theorem c5_witness :
    (∃ t, HaproxyTimers.parse "1/2/3/4" = .ok t) ↔
      ((splitSlash "1/2/3/4".toList).length = 5 ∧
        ∀ seg ∈ splitSlash "1/2/3/4".toList, RustUIntSeg seg) :=
  (c5_amended "1/2/3/4").1

/-- C6 counterexample: `"00/0/0/0/0"` decodes fine (leading zeros are
accepted) but re-joining the typed fields renders `"0/0/0/0/0"`, so the
round trip does not reproduce the original string. -/
theorem c6_counterexample :
    HaproxyTimers.parse "00/0/0/0/0" = .ok ⟨"00/0/0/0/0", 0, 0, 0, 0, 0⟩ ∧
    (HaproxyTimers.mk "00/0/0/0/0" 0 0 0 0 0).display = "0/0/0/0/0" ∧
    ("0/0/0/0/0" : String) ≠ "00/0/0/0/0" := by
  refine ⟨?_, ?_, ?_⟩ <;> decide

/-- C6 amended: for five values rendered canonically (no leading zeros,
no sign), decoding `"a/b/c/d/e"` succeeds with exactly those values and
re-joining the typed fields with `/` reproduces the original string
byte-for-byte — for Timers and ConnectionCounts alike. -/
theorem c6_amended (n1 n2 n3 n4 n5 : Nat) (h1 : n1 < 2 ^ 64)
    (h2 : n2 < 2 ^ 64) (h3 : n3 < 2 ^ 64) (h4 : n4 < 2 ^ 64)
    (h5 : n5 < 2 ^ 64) :
    HaproxyTimers.parse (String.mk (natToDec n1 ++ ('/' :: (natToDec n2 ++
        ('/' :: (natToDec n3 ++ ('/' :: (natToDec n4 ++
        ('/' :: natToDec n5))))))))) =
      .ok ⟨String.mk (natToDec n1 ++ ('/' :: (natToDec n2 ++
        ('/' :: (natToDec n3 ++ ('/' :: (natToDec n4 ++
        ('/' :: natToDec n5)))))))), n1, n2, n3, n4, n5⟩ ∧
    (HaproxyTimers.mk (String.mk (natToDec n1 ++ ('/' :: (natToDec n2 ++
        ('/' :: (natToDec n3 ++ ('/' :: (natToDec n4 ++
        ('/' :: natToDec n5))))))))) n1 n2 n3 n4 n5).display =
      String.mk (natToDec n1 ++ ('/' :: (natToDec n2 ++
        ('/' :: (natToDec n3 ++ ('/' :: (natToDec n4 ++
        ('/' :: natToDec n5)))))))) ∧
    HaproxyConnectionCounts.parse (String.mk (natToDec n1 ++
        ('/' :: (natToDec n2 ++ ('/' :: (natToDec n3 ++
        ('/' :: (natToDec n4 ++ ('/' :: natToDec n5))))))))) =
      .ok ⟨String.mk (natToDec n1 ++ ('/' :: (natToDec n2 ++
        ('/' :: (natToDec n3 ++ ('/' :: (natToDec n4 ++
        ('/' :: natToDec n5)))))))), n1, n2, n3, n4, n5⟩ ∧
    (HaproxyConnectionCounts.mk (String.mk (natToDec n1 ++
        ('/' :: (natToDec n2 ++ ('/' :: (natToDec n3 ++
        ('/' :: (natToDec n4 ++ ('/' :: natToDec n5)))))))))
        n1 n2 n3 n4 n5).display =
      String.mk (natToDec n1 ++ ('/' :: (natToDec n2 ++
        ('/' :: (natToDec n3 ++ ('/' :: (natToDec n4 ++
        ('/' :: natToDec n5)))))))) := by
  obtain ⟨ne1, dig1, val1, -⟩ := natToDec_spec n1
  obtain ⟨ne2, dig2, val2, -⟩ := natToDec_spec n2
  obtain ⟨ne3, dig3, val3, -⟩ := natToDec_spec n3
  obtain ⟨ne4, dig4, val4, -⟩ := natToDec_spec n4
  obtain ⟨ne5, dig5, val5, -⟩ := natToDec_spec n5
  have hparse := timers_parse_slash5 (a := natToDec n1) (b := natToDec n2)
    (c := natToDec n3) (d := natToDec n4) (e := natToDec n5)
    ⟨ne1, dig1⟩ ⟨ne2, dig2⟩ ⟨ne3, dig3⟩ ⟨ne4, dig4⟩ ⟨ne5, dig5⟩
    (by rw [val1]; exact h1) (by rw [val2]; exact h2)
    (by rw [val3]; exact h3) (by rw [val4]; exact h4)
    (by rw [val5]; exact h5)
  have hparse' := conn_parse_slash5 (a := natToDec n1) (b := natToDec n2)
    (c := natToDec n3) (d := natToDec n4) (e := natToDec n5)
    ⟨ne1, dig1⟩ ⟨ne2, dig2⟩ ⟨ne3, dig3⟩ ⟨ne4, dig4⟩ ⟨ne5, dig5⟩
    (by rw [val1]; exact h1) (by rw [val2]; exact h2)
    (by rw [val3]; exact h3) (by rw [val4]; exact h4)
    (by rw [val5]; exact h5)
  rw [val1, val2, val3, val4, val5] at hparse hparse'
  refine ⟨hparse, ?_, hparse', ?_⟩ <;>
  · show String.mk _ = String.mk _
    congr 1
    simp [List.append_assoc]

/-- C6 witness: the round trip at `5/0/12/345/6789`. -/
theorem c6_witness :
    HaproxyTimers.parse (String.mk (natToDec 5 ++ ('/' :: (natToDec 0 ++
        ('/' :: (natToDec 12 ++ ('/' :: (natToDec 345 ++
        ('/' :: natToDec 6789))))))))) =
      .ok ⟨String.mk (natToDec 5 ++ ('/' :: (natToDec 0 ++
        ('/' :: (natToDec 12 ++ ('/' :: (natToDec 345 ++
        ('/' :: natToDec 6789)))))))), 5, 0, 12, 345, 6789⟩ :=
  (c6_amended 5 0 12 345 6789 (by norm_num) (by norm_num) (by norm_num)
    (by norm_num) (by norm_num)).1

/-- C7 counterexample: `HaproxyQueueStats` stores no `raw` field — two
distinct inputs (differing in a leading zero) decode to identical
records, so the original string is not retained verbatim anywhere in the
result. -/
theorem c7_counterexample :
    HaproxyQueueStats.parse "0/0" = .ok ⟨0, 0⟩ ∧
    HaproxyQueueStats.parse "00/0" = .ok ⟨0, 0⟩ ∧
    ("0/0" : String) ≠ "00/0" := by
  refine ⟨?_, ?_, ?_⟩ <;> decide

/-- C7 amended: Timers and ConnectionCounts store the original joined
string verbatim in `raw`; QueueStats keeps only the two typed integers
(its records are fully determined by `server` and `backend`). -/
theorem c7_amended :
    (∀ (s : String) (t : HaproxyTimers),
      HaproxyTimers.parse s = .ok t → t.raw = s) ∧
    (∀ (s : String) (c : HaproxyConnectionCounts),
      HaproxyConnectionCounts.parse s = .ok c → c.raw = s) ∧
    (∀ q1 q2 : HaproxyQueueStats, q1.server = q2.server →
      q1.backend = q2.backend → q1 = q2) := by
  refine ⟨fun s t h => timers_parse_raw h, fun s c h => conn_parse_raw h,
    fun q1 q2 hs hb => ?_⟩
  cases q1
  cases q2
  simp_all

/-- C7 witness: the Timers raw field on a concrete parse. -/
theorem c7_witness :
    (⟨"1/2/3/4/5", 1, 2, 3, 4, 5⟩ : HaproxyTimers).raw = "1/2/3/4/5" :=
  c7_amended.1 "1/2/3/4/5" ⟨"1/2/3/4/5", 1, 2, 3, 4, 5⟩ (by decide)

/-- C1 counterexample: `exLine` decodes, but its plain-text rendering is
not the line up to whitespace-run lengths: `colorless` omits the brackets
around the accepted timestamp, the colon after the process id, the slash
between backend and server names, the two dash placeholders and the
quotes around the request, so even after collapsing every whitespace run
the two strings differ. -/
theorem c1_counterexample :
    HaproxyLogEntry.parse exLine = .ok exEntry ∧
    wsCollapse (HaproxyLogEntry.colorless exEntry).toList ≠
      wsCollapse exLine.toList := by
  refine ⟨?_, ?_⟩ <;> decide

/-- C1 amended: for every line accepted by the grammar whose numeric
segments fit in 64 bits, decode succeeds; the rendering is the
space-joined concatenation of the seventeen captured sub-fields in
declaration order, reproducing every pass-through sub-field byte-for-byte
and re-rendering the three numeric groups canonically (byte-for-byte
equal to the capture whenever no segment carries a superfluous leading
zero); the surrounding punctuation of the original line is not
re-emitted. -/
theorem c1_amended (line : String) (caps : Caps)
    (hm : reCaptures line = some caps)
    (hq : ∀ seg ∈ splitSlash caps.queues_stats, digitsVal seg < 2 ^ 64)
    (hcc : ∀ seg ∈ splitSlash caps.conn_counts, digitsVal seg < 2 ^ 64)
    (hqu : ∀ seg ∈ splitSlash caps.queue, digitsVal seg < 2 ^ 64) :
    ∃ e, HaproxyLogEntry.parse line = .ok e ∧
      e.month = String.mk caps.month ∧ e.day = String.mk caps.day ∧
      e.time = String.mk caps.time ∧ e.host = String.mk caps.host ∧
      e.process_id = String.mk caps.process_id ∧
      e.source_ip_port = String.mk caps.source_ip_port ∧
      e.time_stamp_accepted = String.mk caps.time_stamp_accepted ∧
      e.frontend_name = String.mk caps.frontend_name ∧
      e.backend_name = String.mk caps.backend_name ∧
      e.server_name = String.mk caps.server_name ∧
      e.response_code = String.mk caps.response_code ∧
      e.bytes_read = String.mk caps.bytes_read ∧
      e.request = String.mk caps.request ∧
      e.termination_state.display = String.mk caps.termination_state ∧
      e.colorless = String.intercalate " "
        [String.mk caps.month, String.mk caps.day, String.mk caps.time,
         String.mk caps.host, String.mk caps.process_id,
         String.mk caps.source_ip_port, String.mk caps.time_stamp_accepted,
         String.mk caps.frontend_name, String.mk caps.backend_name,
         String.mk caps.server_name, e.timers.display,
         String.mk caps.response_code, String.mk caps.bytes_read,
         String.mk caps.termination_state, e.conn_counts.display,
         e.queue.display, String.mk caps.request] ∧
      (NoLeadZeros caps.queues_stats →
        e.timers.display = String.mk caps.queues_stats) ∧
      (NoLeadZeros caps.conn_counts →
        e.conn_counts.display = String.mk caps.conn_counts) ∧
      (NoLeadZeros caps.queue →
        e.queue.display = String.mk caps.queue) := by
  obtain ⟨hs5q, hs5c, hs2, hlen4, -⟩ := reDecomp hm
  obtain ⟨q1, q2, q3, q4, q5, dq1, dq2, dq3, dq4, dq5, heq⟩ := hs5q
  obtain ⟨k1, k2, k3, k4, k5, dk1, dk2, dk3, dk4, dk5, heqc⟩ := hs5c
  obtain ⟨m1, m2, dm1, dm2, heqq⟩ := hs2
  obtain ⟨t0, t1, t2, t3, heq4⟩ := length_eq_four hlen4
  have hsplitq : splitSlash caps.queues_stats = [q1, q2, q3, q4, q5] := by
    rw [heq]
    exact splitSlash_slash5 dq1 dq2 dq3 dq4 dq5
  have hsplitc : splitSlash caps.conn_counts = [k1, k2, k3, k4, k5] := by
    rw [heqc]
    exact splitSlash_slash5 dk1 dk2 dk3 dk4 dk5
  have hsplitm : splitSlash caps.queue = [m1, m2] := by
    rw [heqq]
    exact splitSlash_slash2 dm1 dm2
  have bq1 := hq q1 (by rw [hsplitq]; simp)
  have bq2 := hq q2 (by rw [hsplitq]; simp)
  have bq3 := hq q3 (by rw [hsplitq]; simp)
  have bq4 := hq q4 (by rw [hsplitq]; simp)
  have bq5 := hq q5 (by rw [hsplitq]; simp)
  have bk1 := hcc k1 (by rw [hsplitc]; simp)
  have bk2 := hcc k2 (by rw [hsplitc]; simp)
  have bk3 := hcc k3 (by rw [hsplitc]; simp)
  have bk4 := hcc k4 (by rw [hsplitc]; simp)
  have bk5 := hcc k5 (by rw [hsplitc]; simp)
  have bm1 := hqu m1 (by rw [hsplitm]; simp)
  have bm2 := hqu m2 (by rw [hsplitm]; simp)
  have ht : HaproxyTimers.parse (String.mk caps.queues_stats) =
      .ok ⟨String.mk caps.queues_stats, digitsVal q1, digitsVal q2,
        digitsVal q3, digitsVal q4, digitsVal q5⟩ := by
    rw [heq]
    exact timers_parse_slash5 dq1 dq2 dq3 dq4 dq5 bq1 bq2 bq3 bq4 bq5
  have hcn : HaproxyConnectionCounts.parse (String.mk caps.conn_counts) =
      .ok ⟨String.mk caps.conn_counts, digitsVal k1, digitsVal k2,
        digitsVal k3, digitsVal k4, digitsVal k5⟩ := by
    rw [heqc]
    exact conn_parse_slash5 dk1 dk2 dk3 dk4 dk5 bk1 bk2 bk3 bk4 bk5
  have hqq : HaproxyQueueStats.parse (String.mk caps.queue) =
      .ok ⟨digitsVal m1, digitsVal m2⟩ := by
    rw [heqq]
    exact queue_parse_slash2 dm1 dm2 bm1 bm2
  have hts : HaproxyTerminationState.parse
      (String.mk caps.termination_state) =
      .ok ⟨String.mk caps.termination_state, .reason t0, .state t1,
        .cookie t2, .operations t3⟩ := by
    rw [heq4]
    rfl
  refine ⟨⟨String.mk caps.month, String.mk caps.day, String.mk caps.time,
    String.mk caps.host, String.mk caps.process_id,
    String.mk caps.source_ip_port, String.mk caps.time_stamp_accepted,
    String.mk caps.frontend_name, String.mk caps.backend_name,
    String.mk caps.server_name,
    ⟨String.mk caps.queues_stats, digitsVal q1, digitsVal q2, digitsVal q3,
      digitsVal q4, digitsVal q5⟩,
    String.mk caps.response_code, String.mk caps.bytes_read,
    ⟨String.mk caps.termination_state, .reason t0, .state t1, .cookie t2,
      .operations t3⟩,
    ⟨String.mk caps.conn_counts, digitsVal k1, digitsVal k2, digitsVal k3,
      digitsVal k4, digitsVal k5⟩,
    ⟨digitsVal m1, digitsVal m2⟩, String.mk caps.request⟩,
    ?_, rfl, rfl, rfl, rfl, rfl, rfl, rfl, rfl, rfl, rfl, rfl, rfl, rfl,
    ?_, ?_, ?_, ?_, ?_⟩
  · simp only [HaproxyLogEntry.parse, hm, ht, hts, hcn, hqq, RustRes.bind]
  · rw [heq4]
    rfl
  · show String.intercalate " " _ = String.intercalate " " _
    rw [show (⟨String.mk caps.termination_state, .reason t0, .state t1,
      .cookie t2, .operations t3⟩ :
        HaproxyTerminationState).display =
        String.mk caps.termination_state from by rw [heq4]; rfl]
  · intro hnlz
    have r1 : natToDec (digitsVal q1) = q1 :=
      natToDec_digitsVal dq1.1 dq1.2 (hnlz q1 (by rw [hsplitq]; simp))
    have r2 : natToDec (digitsVal q2) = q2 :=
      natToDec_digitsVal dq2.1 dq2.2 (hnlz q2 (by rw [hsplitq]; simp))
    have r3 : natToDec (digitsVal q3) = q3 :=
      natToDec_digitsVal dq3.1 dq3.2 (hnlz q3 (by rw [hsplitq]; simp))
    have r4 : natToDec (digitsVal q4) = q4 :=
      natToDec_digitsVal dq4.1 dq4.2 (hnlz q4 (by rw [hsplitq]; simp))
    have r5 : natToDec (digitsVal q5) = q5 :=
      natToDec_digitsVal dq5.1 dq5.2 (hnlz q5 (by rw [hsplitq]; simp))
    refine congrArg String.mk ?_
    rw [r1, r2, r3, r4, r5, heq]
    simp [List.append_assoc]
  · intro hnlz
    have r1 : natToDec (digitsVal k1) = k1 :=
      natToDec_digitsVal dk1.1 dk1.2 (hnlz k1 (by rw [hsplitc]; simp))
    have r2 : natToDec (digitsVal k2) = k2 :=
      natToDec_digitsVal dk2.1 dk2.2 (hnlz k2 (by rw [hsplitc]; simp))
    have r3 : natToDec (digitsVal k3) = k3 :=
      natToDec_digitsVal dk3.1 dk3.2 (hnlz k3 (by rw [hsplitc]; simp))
    have r4 : natToDec (digitsVal k4) = k4 :=
      natToDec_digitsVal dk4.1 dk4.2 (hnlz k4 (by rw [hsplitc]; simp))
    have r5 : natToDec (digitsVal k5) = k5 :=
      natToDec_digitsVal dk5.1 dk5.2 (hnlz k5 (by rw [hsplitc]; simp))
    refine congrArg String.mk ?_
    rw [r1, r2, r3, r4, r5, heqc]
    simp [List.append_assoc]
  · intro hnlz
    have r1 : natToDec (digitsVal m1) = m1 :=
      natToDec_digitsVal dm1.1 dm1.2 (hnlz m1 (by rw [hsplitm]; simp))
    have r2 : natToDec (digitsVal m2) = m2 :=
      natToDec_digitsVal dm2.1 dm2.2 (hnlz m2 (by rw [hsplitm]; simp))
    refine congrArg String.mk ?_
    rw [r1, r2, heqq]

/-- C1 witness: the amended statement applied to the concrete line
`exLine` and its captures. -/
theorem c1_witness :
    ∃ e, HaproxyLogEntry.parse exLine = .ok e ∧
      e.month = String.mk exCaps.month ∧ e.day = String.mk exCaps.day ∧
      e.time = String.mk exCaps.time ∧ e.host = String.mk exCaps.host ∧
      e.process_id = String.mk exCaps.process_id ∧
      e.source_ip_port = String.mk exCaps.source_ip_port ∧
      e.time_stamp_accepted = String.mk exCaps.time_stamp_accepted ∧
      e.frontend_name = String.mk exCaps.frontend_name ∧
      e.backend_name = String.mk exCaps.backend_name ∧
      e.server_name = String.mk exCaps.server_name ∧
      e.response_code = String.mk exCaps.response_code ∧
      e.bytes_read = String.mk exCaps.bytes_read ∧
      e.request = String.mk exCaps.request ∧
      e.termination_state.display = String.mk exCaps.termination_state ∧
      e.colorless = String.intercalate " "
        [String.mk exCaps.month, String.mk exCaps.day, String.mk exCaps.time,
         String.mk exCaps.host, String.mk exCaps.process_id,
         String.mk exCaps.source_ip_port,
         String.mk exCaps.time_stamp_accepted,
         String.mk exCaps.frontend_name, String.mk exCaps.backend_name,
         String.mk exCaps.server_name, e.timers.display,
         String.mk exCaps.response_code, String.mk exCaps.bytes_read,
         String.mk exCaps.termination_state, e.conn_counts.display,
         e.queue.display, String.mk exCaps.request] ∧
      (NoLeadZeros exCaps.queues_stats →
        e.timers.display = String.mk exCaps.queues_stats) ∧
      (NoLeadZeros exCaps.conn_counts →
        e.conn_counts.display = String.mk exCaps.conn_counts) ∧
      (NoLeadZeros exCaps.queue →
        e.queue.display = String.mk exCaps.queue) :=
  c1_amended exLine exCaps (by decide) (by decide) (by decide) (by decide)

end L8r
